import Mathlib

/-!
Verification development for the live-stream interactive game core
(danmaku_listener.py, gift_system.py, leaderboard.py, ai_storyteller.py,
player.py).  The Python code is shallowly embedded: dicts become
insertion-ordered association lists, floats become rationals, the wall
clock becomes an explicit `Nat` timestamp parameter, callbacks are
modelled by whether one is registered plus an invocation counter held by
the execution harness, and Python's stable
`sorted(xs, key=key, reverse=True)` is modelled by `List.insertionSort`
with the relation `key b ≤ key a` (insertion sort is stable, so equal
keys keep their original relative order, exactly as CPython guarantees).

Definitions come first, theorems afterwards.
-/

/-! ## Definitions -/

namespace SortModel

/-- The descending-by-key relation used to model
`sorted(xs, key=key, reverse=True)`. -/
def descRel {α : Type} (key : α → ℚ) : α → α → Prop :=
  fun a b => key b ≤ key a

instance descRel_decidable {α : Type} (key : α → ℚ) : DecidableRel (descRel key) :=
  fun a b => inferInstanceAs (Decidable (key b ≤ key a))

instance descRel_total {α : Type} (key : α → ℚ) : IsTotal α (descRel key) :=
  ⟨fun a b => le_total (key b) (key a)⟩

instance descRel_trans {α : Type} (key : α → ℚ) : IsTrans α (descRel key) :=
  ⟨fun _ _ _ h h' => le_trans h' h⟩

/-- Model of Python's stable descending sort by a numeric key. -/
def stableSortDescBy {α : Type} (key : α → ℚ) (l : List α) : List α :=
  List.insertionSort (descRel key) l

end SortModel

namespace PlayerM

/-- State of the player character relevant to hp/mp arithmetic
(`Player.__init__` in player.py; Python ints become `Int`). -/
structure Player where
  hp : Int
  max_hp : Int
  mp : Int
  max_mp : Int
  deriving Repr, DecidableEq

/-- `Player.take_damage`: `self.hp = max(0, self.hp - damage); return self.hp <= 0`. -/
def take_damage (p : Player) (damage : Int) : Player × Bool :=
  let hp := max 0 (p.hp - damage)
  ({ p with hp := hp }, decide (hp ≤ 0))

/-- `Player.heal`: clamp hp at `max_hp`, return the actual amount restored. -/
def heal (p : Player) (amount : Int) : Player × Int :=
  let hp := min p.max_hp (p.hp + amount)
  ({ p with hp := hp }, hp - p.hp)

/-- `Player.restore_mp`: clamp mp at `max_mp`, return the actual amount restored. -/
def restore_mp (p : Player) (amount : Int) : Player × Int :=
  let mp := min p.max_mp (p.mp + amount)
  ({ p with mp := mp }, mp - p.mp)

/-- hp and mp lie within their `0 ≤ · ≤ max` bounds. -/
def InBounds (p : Player) : Prop :=
  0 ≤ p.hp ∧ p.hp ≤ p.max_hp ∧ 0 ≤ p.mp ∧ p.mp ≤ p.max_mp

instance (p : Player) : Decidable (InBounds p) := by
  unfold InBounds; infer_instance

end PlayerM

namespace DanmakuListener

/-- `DanmakuMessage` fields used by the vote manager. -/
structure DanmakuMessage where
  platform : String
  user_id : String
  username : String
  content : String
  deriving Repr, DecidableEq

/-- An insertion-ordered dict `user_id -> username` (one option's ballots). -/
abbrev Ballots := List (String × String)

/-- `user_id in dict` for a ballot dict. -/
def dictContains (m : Ballots) (uid : String) : Bool :=
  m.any (fun p => p.1 == uid)

/-- `VoteManager` state (danmaku_listener.py).  `self.votes` maps option
key to its ballot dict; `self.option_patterns` maps option key to its
match patterns.  `self.vote_callback` is modelled by `hasCallback`
(whether a callback is registered); the timer thread is modelled by
explicit timer-expiry events, see `VoteEvent`. -/
structure VoteManager where
  vote_duration : Nat
  votes : List (String × Ballots)
  option_patterns : List (String × List String)
  voting_active : Bool
  vote_start_time : Option Nat
  hasCallback : Bool
  deriving Repr, DecidableEq

/-- `VoteManager.__init__(vote_duration)`. -/
def initVoteManager (d : Nat) : VoteManager :=
  { vote_duration := d, votes := [], option_patterns := [],
    voting_active := false, vote_start_time := none, hasCallback := false }

/-- The option keys `str(i+1)` for `i in range(len(options))`. -/
def ordKeys (n : Nat) : List String :=
  (List.range n).map (fun i => toString (i + 1))

/-- `VoteManager.start_vote(options, callback)`: resets the ballot dicts,
builds the per-option match-pattern table, marks the session active,
records the start time and the callback, and returns `vote_duration`.
(The spawned timer thread is modelled as `VoteEvent.timerExpiry`.) -/
def start_vote (s : VoteManager) (options : List String) (hasCb : Bool)
    (now : Nat) : VoteManager × Nat :=
  let votes := (List.range options.length).map
    (fun i => (toString (i + 1), ([] : Ballots)))
  let patterns := (List.range options.length).map (fun i =>
    let key := toString (i + 1)
    (key, [key, "选" ++ key, "选择" ++ key, key ++ "号"]))
  ({ s with votes := votes, option_patterns := patterns,
            voting_active := true, vote_start_time := some now,
            hasCallback := hasCb },
   s.vote_duration)

/-- Python's `str.strip()`: drop leading and trailing whitespace
(computed on the character list so that proofs can evaluate it). -/
def strTrim (s : String) : String :=
  String.mk (((s.data.dropWhile Char.isWhitespace).reverse.dropWhile
    Char.isWhitespace).reverse)

/-- Python's `str.startswith(prefix)` (computed on the character lists). -/
def strStartsWith (content pat : String) : Bool :=
  List.isPrefixOf pat.data content.data

/-- `content == pattern or content.startswith(pattern)` over a pattern list. -/
def patternMatches (content : String) (patterns : List String) : Bool :=
  patterns.any (fun p => content == p || strStartsWith content p)

/-- `self.votes[key]` (empty if the key is absent; `start_vote` keeps the
keys of `votes` and `option_patterns` identical, so this total variant is
faithful on reachable states). -/
def voteLookup (votes : List (String × Ballots)) (k : String) : Ballots :=
  ((votes.find? (fun kv => kv.1 == k)).map Prod.snd).getD []

/-- The removal loop `for k in self.votes: if user_id in self.votes[k]:
del self.votes[k][user_id]`. -/
def removeUserVotes (votes : List (String × Ballots)) (uid : String) :
    List (String × Ballots) :=
  votes.map (fun kv => (kv.1, kv.2.filter (fun p => p.1 != uid)))

/-- Remove the voter's earlier ballot everywhere, then record
`self.votes[key][user_id] = username`. -/
def recordVote (votes : List (String × Ballots)) (k uid uname : String) :
    List (String × Ballots) :=
  (removeUserVotes votes uid).map
    (fun kv => (kv.1, if kv.1 == k then kv.2 ++ [(uid, uname)] else kv.2))

/-- The scan of `process_danmaku` over `option_patterns`: the first option
key whose patterns match the content and whose ballot dict does not already
contain the voter (otherwise the inner loop falls through to later keys). -/
def findVoteKey (s : VoteManager) (content uid : String) : Option String :=
  (s.option_patterns.find? (fun kp =>
    patternMatches content kp.2 && !(dictContains (voteLookup s.votes kp.1) uid))).map
    Prod.fst

/-- `VoteManager.process_danmaku(msg)`: returns the new state and the
option key recorded (or `none`). -/
def process_danmaku (s : VoteManager) (msg : DanmakuMessage) :
    VoteManager × Option String :=
  if !s.voting_active then (s, none)
  else
    let content := strTrim msg.content
    match findVoteKey s content msg.user_id with
    | none => (s, none)
    | some k =>
      ({ s with votes := recordVote s.votes k msg.user_id msg.username }, some k)

/-- `VoteManager.get_vote_counts()`: `{k: len(v) for k, v in self.votes.items()}`. -/
def get_vote_counts (s : VoteManager) : List (String × Nat) :=
  s.votes.map (fun kv => (kv.1, kv.2.length))

/-- Python's `max(counts.keys(), key=lambda k: counts[k])`: iterate in
insertion order, replacing the current best only on a strictly greater
count, so the first maximum wins. -/
def maxByFirst (best : String × Nat) : List (String × Nat) → String × Nat
  | [] => best
  | c :: cs => if best.2 < c.2 then maxByFirst c cs else maxByFirst best cs

/-- Winner selection of `end_vote`: `"1"` when the counts dict is empty,
else the first key attaining the maximal count. -/
def winnerOf (counts : List (String × Nat)) : String :=
  match counts with
  | [] => "1"
  | c :: cs => (maxByFirst c cs).1

/-- Result of one `end_vote()` call: the new state, the returned pair, and
whether the resolution callback was invoked (`if self.vote_callback: ...`). -/
structure EndVoteResult where
  state : VoteManager
  winner : String
  counts : List (String × Nat)
  fired : Bool
  deriving Repr, DecidableEq

/-- `VoteManager.end_vote()`: unconditionally sets `voting_active = False`,
recomputes the tally, picks the winner, and invokes the callback whenever
one is registered — there is no already-closed guard in this method. -/
def end_vote (s : VoteManager) : EndVoteResult :=
  let s' := { s with voting_active := false }
  let counts := get_vote_counts s'
  let winner := winnerOf counts
  { state := s', winner := winner, counts := counts, fired := s'.hasCallback }

/-- The two ways `end_vote` gets invoked: a direct (explicit) call, or the
expiry of `_vote_timer`, which first checks `if self.voting_active`. -/
inductive VoteEvent
  | explicitEnd
  | timerExpiry
  deriving Repr, DecidableEq

/-- Run one invocation event, accumulating the number of callback firings. -/
def stepEvent : VoteManager × Nat → VoteEvent → VoteManager × Nat
  | (s, fires), VoteEvent.explicitEnd =>
    let r := end_vote s
    (r.state, fires + (if r.fired then 1 else 0))
  | (s, fires), VoteEvent.timerExpiry =>
    if s.voting_active then
      let r := end_vote s
      (r.state, fires + (if r.fired then 1 else 0))
    else (s, fires)

/-- Run a sequence of `end_vote` invocation events, counting callback firings. -/
def runEvents (s : VoteManager) (evs : List VoteEvent) : VoteManager × Nat :=
  evs.foldl stepEvent (s, 0)

/-- `user_id` occurs in a ballot dict (propositional form of `dictContains`). -/
def UserIn (uid : String) (m : Ballots) : Prop :=
  uid ∈ m.map Prod.fst

instance (uid : String) (m : Ballots) : Decidable (UserIn uid m) := by
  unfold UserIn; infer_instance

/-- The ballot invariant: any two options whose ballot dicts contain the
same voter have the same key — each voter appears in at most one option's
ballot dict. -/
def BallotInvariant (votes : List (String × Ballots)) : Prop :=
  ∀ uid kv₁ kv₂, kv₁ ∈ votes → kv₂ ∈ votes →
    UserIn uid kv₁.2 → UserIn uid kv₂.2 → kv₁.1 = kv₂.1

end DanmakuListener

namespace GiftSystem

/-- `GiftMessage` (danmaku_listener.py) fields used by the gift system;
`gift_value` is a Python float, modelled by the rational it denotes. -/
structure GiftMessage where
  platform : String
  user_id : String
  username : String
  gift_name : String
  gift_count : Nat
  gift_value : ℚ
  deriving Repr, DecidableEq

/-- `GiftEffect` (gift_system.py).  Of the payload dict the processor
itself only inspects `effects.get("can_rename")`, modelled as a flag;
the numeric payload entries are applied later by the game loop. -/
structure GiftEffect where
  name : String
  min_value : ℚ
  can_rename : Bool
  description : String
  deriving Repr, DecidableEq

/-- The `GIFT_EFFECTS` table in dict insertion order.  The float literal
`0.1` is modelled by the rational `1/10` it stands for (the binary
representation error does not affect any comparison in this file). -/
def giftEffects : List GiftEffect :=
  [ { name := "灵气注入", min_value := 1/10, can_rename := false,
      description := "获得5点修为" },
    { name := "灵石馈赠", min_value := 1, can_rename := false,
      description := "获得20点修为" },
    { name := "仙晶灌顶", min_value := 10, can_rename := false,
      description := "获得100点修为" },
    { name := "生命祝福", min_value := 5, can_rename := false,
      description := "最大生命值+50，恢复50生命" },
    { name := "灵力灌注", min_value := 5, can_rename := false,
      description := "最大灵力+30，恢复30灵力" },
    { name := "天赋觉醒", min_value := 20, can_rename := false,
      description := "随机属性+2" },
    { name := "赐名权", min_value := 50, can_rename := true,
      description := "可以为主角改名" },
    { name := "天道眷顾", min_value := 100, can_rename := false,
      description := "突破成功率+30%" },
    { name := "复活秘法", min_value := 200, can_rename := false,
      description := "死亡时可复活一次" } ]

/-- `GiftRecord` (gift_system.py); the ISO timestamp string becomes the
modelled clock value. -/
structure GiftRecord where
  user_id : String
  username : String
  platform : String
  gift_name : String
  gift_count : Nat
  gift_value : ℚ
  effect_applied : String
  timestamp : Nat
  deriving Repr, DecidableEq

/-- `DonorStats` (gift_system.py); `last_gift_time` is the modelled clock
value instead of an ISO string (the clock is monotone, so order is
preserved). -/
structure DonorStats where
  user_id : String
  username : String
  platform : String
  total_value : ℚ
  total_gifts : Nat
  last_gift_time : Nat
  contribution_rank : Nat
  deriving Repr, DecidableEq

/-- The dict key `f"{gift.platform}_{gift.user_id}"` of a stats record. -/
def statKey (d : DonorStats) : String :=
  d.platform ++ "_" ++ d.user_id

/-- `GiftProcessor` state.  `donor_stats` is the insertion-ordered dict
keyed by `statKey`; `pending_effects` holds `{"effect", "donor", "value"}`
triples; `pending_rename` holds `{"donor", "user_id"}`.  File persistence
and the effect callbacks are I/O and are not modelled. -/
structure GiftProcessor where
  records : List GiftRecord
  donor_stats : List DonorStats
  pending_effects : List (GiftEffect × String × ℚ)
  pending_rename : Option (String × String)
  deriving Repr, DecidableEq

/-- `GiftProcessor.__init__` on a fresh save file. -/
def initGiftProcessor : GiftProcessor :=
  { records := [], donor_stats := [], pending_effects := [],
    pending_rename := none }

/-- `GiftProcessor._determine_effect(value)`: sort the effects by
`min_value` descending and return the first one whose threshold the value
reaches. -/
def determine_effect (value : ℚ) : Option GiftEffect :=
  (SortModel.stableSortDescBy (fun e => e.min_value) giftEffects).find?
    (fun e => decide (e.min_value ≤ value))

/-- `GiftProcessor._update_rankings()`: sort the stats dict's values by
`total_value` descending (stable) and write `i + 1` into each donor's
`contribution_rank`.  The in-place mutation over the sorted view is
modelled by giving each donor one plus its position in that view (the
dict keys are unique on every reachable state). -/
def update_rankings (stats : List DonorStats) : List DonorStats :=
  let sorted := SortModel.stableSortDescBy (fun d => d.total_value) stats
  stats.map (fun d =>
    { d with contribution_rank :=
        sorted.findIdx (fun e => statKey e == statKey d) + 1 })

/-- `GiftProcessor._update_donor_stats(gift, value)`: create the record on
first sight, then accumulate value and count, refresh username and
last-gift time, and recompute all rankings. -/
def update_donor_stats (stats : List DonorStats) (gift : GiftMessage)
    (value : ℚ) (now : Nat) : List DonorStats :=
  let key := gift.platform ++ "_" ++ gift.user_id
  let stats₁ :=
    if stats.any (fun d => statKey d == key) then stats
    else stats ++ [{ user_id := gift.user_id, username := gift.username,
                     platform := gift.platform, total_value := 0,
                     total_gifts := 0, last_gift_time := 0,
                     contribution_rank := 0 }]
  let stats₂ := stats₁.map (fun d =>
    if statKey d == key then
      { d with total_value := d.total_value + value,
               total_gifts := d.total_gifts + gift.gift_count,
               last_gift_time := now,
               username := gift.username }
    else d)
  update_rankings stats₂

/-- `GiftProcessor.process_gift(gift)`: compute the total value, update
the donor's stats, determine the tier; when one triggers, append the
audit record, enqueue the pending effect, and record a rename grant for
the `can_rename` tier. -/
def process_gift (gp : GiftProcessor) (gift : GiftMessage) (now : Nat) :
    GiftProcessor × Option GiftEffect :=
  let total_value := gift.gift_value * (gift.gift_count : ℚ)
  let stats := update_donor_stats gp.donor_stats gift total_value now
  match determine_effect total_value with
  | none => ({ gp with donor_stats := stats }, none)
  | some e =>
    let record : GiftRecord :=
      { user_id := gift.user_id, username := gift.username,
        platform := gift.platform, gift_name := gift.gift_name,
        gift_count := gift.gift_count, gift_value := total_value,
        effect_applied := e.name, timestamp := now }
    ({ gp with donor_stats := stats,
               records := gp.records ++ [record],
               pending_effects := gp.pending_effects ++ [(e, gift.username, total_value)],
               pending_rename := if e.can_rename
                 then some (gift.username, gift.user_id)
                 else gp.pending_rename },
     some e)

/-- Modelled from the spec (for comparison with `update_rankings`): the
spec's ranking rule orders donors by a stable descending sort on
cumulative value with ties broken by the earliest last-seen time. -/
def specRankRel (a b : DonorStats) : Prop :=
  b.total_value < a.total_value
  ∨ (a.total_value = b.total_value ∧ a.last_gift_time ≤ b.last_gift_time)

instance specRankRel_decidable : DecidableRel specRankRel := by
  unfold specRankRel
  infer_instance

/-- Modelled from the spec (for comparison with `update_rankings`): ranks
assigned by position in the spec's tie-broken descending sort. -/
def specRankings (stats : List DonorStats) : List DonorStats :=
  let sorted := List.insertionSort specRankRel stats
  stats.map (fun d =>
    { d with contribution_rank :=
        sorted.findIdx (fun e => statKey e == statKey d) + 1 })

/-- The first matching donor's cumulative value (0 when absent),
mirroring a lookup in the stats dict. -/
def donorTotal (stats : List DonorStats) (key : String) : ℚ :=
  ((stats.find? (fun d => statKey d == key)).map (fun d => d.total_value)).getD 0

/-- The first matching donor's cumulative gift count (0 when absent). -/
def donorGifts (stats : List DonorStats) (key : String) : Nat :=
  ((stats.find? (fun d => statKey d == key)).map (fun d => d.total_gifts)).getD 0

end GiftSystem

namespace Leaderboard

/-- JSON values as written by `json.dump` and read back by `json.load`
(leaderboard.py `_save`/`_load`).  Python round-trips strings and numbers
exactly. -/
inductive JValue where
  | jstr (s : String)
  | jnum (q : ℚ)
  | jarr (l : List JValue)
  | jobj (l : List (String × JValue))

/-- `LeaderboardEntry` (leaderboard.py).  `extra_data` is a JSON dict of
numeric counters (`total_votes`, `correct_votes`, …) — the only shape the
scoring paths touch; `last_update` is the modelled clock value. -/
structure LeaderboardEntry where
  user_id : String
  username : String
  platform : String
  score : ℚ
  extra_data : List (String × ℚ)
  last_update : Nat
  deriving Repr, DecidableEq

/-- `LeaderboardType` (leaderboard.py). -/
inductive LeaderboardType where
  | contribution
  | vote_participation
  | lucky
  | game_progress
  deriving Repr, DecidableEq

/-- `Leaderboard` state: the three board dicts (`self.boards` holds
exactly the contribution/vote/lucky keys) and the event history.  The
`game_stats` aggregate is not touched by any claim and is omitted. -/
structure Leaderboard where
  contribution : List (String × LeaderboardEntry)
  vote : List (String × LeaderboardEntry)
  lucky : List (String × LeaderboardEntry)
  history : List String
  deriving Repr, DecidableEq

/-- `Leaderboard.__init__` on a fresh save file. -/
def initLeaderboard : Leaderboard :=
  { contribution := [], vote := [], lucky := [], history := [] }

/-- `self.boards.get(board_type.value, {})`: the dict has no
`game_progress` key, so that kind reads as empty. -/
def boardOf (lb : Leaderboard) : LeaderboardType → List (String × LeaderboardEntry)
  | LeaderboardType.contribution => lb.contribution
  | LeaderboardType.vote_participation => lb.vote
  | LeaderboardType.lucky => lb.lucky
  | LeaderboardType.game_progress => []

/-- `Leaderboard.get_leaderboard(board_type, limit)`: stable descending
sort of the board's values by score, first `limit` entries. -/
def get_leaderboard (lb : Leaderboard) (bt : LeaderboardType) (limit : Nat) :
    List LeaderboardEntry :=
  (SortModel.stableSortDescBy (fun e => e.score) ((boardOf lb bt).map Prod.snd)).take
    limit

/-- `extra_data.get(k, 0)`. -/
def dictGetQ (l : List (String × ℚ)) (k : String) : ℚ :=
  ((l.find? (fun p => p.1 == k)).map Prod.snd).getD 0

/-- `extra_data[k] = v`: replace in place, appending when absent. -/
def dictSetQ (l : List (String × ℚ)) (k : String) (v : ℚ) : List (String × ℚ) :=
  if l.any (fun p => p.1 == k) then
    l.map (fun p => if p.1 == k then (k, v) else p)
  else l ++ [(k, v)]

/-- The per-entry mutation of `update_vote_participation`: count the
vote, refresh identity and time, add the participation point, and on a
winning vote the two bonus points and the correct-vote counter. -/
def bumpVoteEntry (e : LeaderboardEntry) (username : String)
    (won : Bool) (now : Nat) : LeaderboardEntry :=
  let e₁ := { e with
    extra_data := dictSetQ e.extra_data "total_votes"
      (dictGetQ e.extra_data "total_votes" + 1),
    username := username,
    last_update := now }
  let e₂ := { e₁ with score := e₁.score + 1 }
  if won then
    { e₂ with score := e₂.score + 2,
              extra_data := dictSetQ e₂.extra_data "correct_votes"
                (dictGetQ e₂.extra_data "correct_votes" + 1) }
  else e₂

/-- Get-or-create on a board dict, then mutate the keyed entry. -/
def boardUpdate (board : List (String × LeaderboardEntry)) (key : String)
    (fresh : LeaderboardEntry) (g : LeaderboardEntry → LeaderboardEntry) :
    List (String × LeaderboardEntry) :=
  let board₁ := if board.any (fun kv => kv.1 == key) then board
    else board ++ [(key, fresh)]
  board₁.map (fun kv => if kv.1 == key then (kv.1, g kv.2) else kv)

/-- The fresh entry `update_vote_participation` inserts on a voter's
first appearance. -/
def freshVoteEntry (user_id username platform : String) (now : Nat) :
    LeaderboardEntry :=
  { user_id := user_id, username := username, platform := platform,
    score := 0, extra_data := [("total_votes", 0), ("correct_votes", 0)],
    last_update := now }

/-- The fresh entry `_update_lucky_board` inserts on first appearance. -/
def freshLuckyEntry (user_id username platform : String) (now : Nat) :
    LeaderboardEntry :=
  { user_id := user_id, username := username, platform := platform,
    score := 0, extra_data := [], last_update := now }

/-- The per-entry mutation of `_update_lucky_board`. -/
def bumpLuckyEntry (username : String) (now : Nat) (e : LeaderboardEntry) :
    LeaderboardEntry :=
  { e with score := e.score + 1, username := username, last_update := now }

/-- `Leaderboard._update_lucky_board(user_id, username, platform)`. -/
def update_lucky_board (lb : Leaderboard) (user_id username platform : String)
    (now : Nat) : Leaderboard :=
  let board := boardUpdate lb.lucky (platform ++ "_" ++ user_id)
    (freshLuckyEntry user_id username platform now)
    (bumpLuckyEntry username now)
  { lb with lucky := board }

/-- `Leaderboard.update_vote_participation(...)`: +1 participation point,
and on a vote equal to the winning option +2 bonus points plus a lucky
board increment for the same identity.  (`_save()` is I/O and not
modelled.) -/
def update_vote_participation (lb : Leaderboard)
    (user_id username platform voted_option winning_option : String)
    (now : Nat) : Leaderboard :=
  let key := platform ++ "_" ++ user_id
  let won := voted_option == winning_option
  let board := boardUpdate lb.vote key
    (freshVoteEntry user_id username platform now)
    (fun e => bumpVoteEntry e username won now)
  let lb₁ := { lb with vote := board }
  if won then update_lucky_board lb₁ user_id username platform now else lb₁

/-- The score the board holds for a key (0 when absent). -/
def boardScore (board : List (String × LeaderboardEntry)) (key : String) : ℚ :=
  ((board.find? (fun kv => kv.1 == key)).map (fun kv => kv.2.score)).getD 0

/-- `asdict` on one entry, as `json.dump` writes it. -/
def encodeEntry (e : LeaderboardEntry) : JValue :=
  JValue.jobj [("user_id", JValue.jstr e.user_id),
    ("username", JValue.jstr e.username),
    ("platform", JValue.jstr e.platform),
    ("score", JValue.jnum e.score),
    ("extra_data", JValue.jobj (e.extra_data.map (fun p => (p.1, JValue.jnum p.2)))),
    ("last_update", JValue.jnum (e.last_update : ℚ))]

/-- Decode a numeric-counter dict. -/
def decodeExtra : List (String × JValue) → Option (List (String × ℚ))
  | [] => some []
  | (k, JValue.jnum q) :: rest => (decodeExtra rest).map (fun r => (k, q) :: r)
  | _ => none

/-- `LeaderboardEntry(**v)`: reconstruct an entry from its serialized
dict (failure models the exception path of `_load`). -/
def decodeEntry : JValue → Option LeaderboardEntry
  | JValue.jobj [("user_id", JValue.jstr uid), ("username", JValue.jstr un),
      ("platform", JValue.jstr pf), ("score", JValue.jnum sc),
      ("extra_data", JValue.jobj ex), ("last_update", JValue.jnum lu)] =>
    (decodeExtra ex).map (fun exq =>
      { user_id := uid, username := un, platform := pf, score := sc,
        extra_data := exq, last_update := lu.num.toNat })
  | _ => none

/-- `json` object field lookup. -/
def jlookup (fields : List (String × JValue)) (k : String) : Option JValue :=
  (fields.find? (fun p => p.1 == k)).map Prod.snd

/-- Serialize one board dict. -/
def encodeBoard (board : List (String × LeaderboardEntry)) : JValue :=
  JValue.jobj (board.map (fun kv => (kv.1, encodeEntry kv.2)))

/-- Deserialize one board dict. -/
def decodeBoard : JValue → Option (List (String × LeaderboardEntry))
  | JValue.jobj l =>
    l.mapM (fun kv => (decodeEntry kv.2).map (fun e => (kv.1, e)))
  | _ => none

/-- `Leaderboard._save()`: the persisted JSON document — the three board
dicts keyed by their type value and the last 100 history events
(`game_stats` omitted, see `Leaderboard`). -/
def save (lb : Leaderboard) : JValue :=
  JValue.jobj [("boards", JValue.jobj [
      ("contribution", encodeBoard lb.contribution),
      ("vote", encodeBoard lb.vote),
      ("lucky", encodeBoard lb.lucky)]),
    ("history", JValue.jarr ((lb.history.drop (lb.history.length - 100)).map
      JValue.jstr))]

/-- Load one known board kind from the saved `boards` object, keeping the
fresh empty dict when the key is absent. -/
def loadBoard (bs : List (String × JValue)) (k : String) :
    Option (List (String × LeaderboardEntry)) :=
  match jlookup bs k with
  | some b => decodeBoard b
  | none => some []

/-- `Leaderboard._load()`: rebuild the three known board dicts from the
document's `boards` object and restore the history list; any malformed
entry aborts the load (the exception path). -/
def load (j : JValue) : Option Leaderboard :=
  match j with
  | JValue.jobj fields =>
    match jlookup fields "boards" with
    | some (JValue.jobj bs) => do
      let contribution ← loadBoard bs "contribution"
      let vote ← loadBoard bs "vote"
      let lucky ← loadBoard bs "lucky"
      let history := match jlookup fields "history" with
        | some (JValue.jarr hs) => hs.filterMap (fun x => match x with
            | JValue.jstr s => some s
            | _ => none)
        | _ => []
      some { contribution := contribution, vote := vote, lucky := lucky,
             history := history }
    | _ => some initLeaderboard
  | _ => none

end Leaderboard

namespace AIStoryteller

/-- Match the literal tag `[选项<digits>]` at the head of the text,
returning the remainder (the regex fragment `\[选项\d+\]`). -/
def matchTag : List Char → Option (List Char)
  | '[' :: '选' :: '项' :: rest =>
    let digits := rest.takeWhile Char.isDigit
    let rest' := rest.dropWhile Char.isDigit
    if digits.isEmpty then none
    else match rest' with
      | ']' :: r => some r
      | _ => none
  | _ => none

/-- Whether a position starts one of the lookahead markers
`\[选项\d+\]|\[修为|\[生命|\[灵力|\[物品|\[突破` of the option regex. -/
def isMarkerAt (cs : List Char) : Bool :=
  (matchTag cs).isSome
  || ["[修为", "[生命", "[灵力", "[物品", "[突破"].any
    (fun m => m.data.isPrefixOf cs)

/-- The lazy capture `(.+?)` up to the first marker position or the end of
the text: take at least one character, then stop as soon as the remaining
text starts with a marker. -/
def captureUntil : List Char → List Char × List Char
  | [] => ([], [])
  | c :: cs =>
    if isMarkerAt cs then ([c], cs)
    else
      let r := captureUntil cs
      (c :: r.1, r.2)

/-- The `re.findall` scan for `\[选项\d+\]\s*(.+?)(?=markers|$)` with
`re.DOTALL`: find each tag, skip the whitespace after it, capture lazily
to the next marker or the end; a tag at the very end of the text (no
character left for `.+?`) fails to match and scanning resumes one
character later; when only whitespace follows a tag the `\s*` backtracks
and the capture is that single whitespace character.  The fuel is the
text length (each step consumes at least one character). -/
def scanTagsAux : Nat → List Char → List String
  | 0, _ => []
  | _ + 1, [] => []
  | fuel + 1, c :: cs =>
    match matchTag (c :: cs) with
    | some rest =>
      match rest with
      | [] => scanTagsAux fuel cs
      | r₀ :: rs =>
        let afterWs := (r₀ :: rs).dropWhile Char.isWhitespace
        if afterWs.isEmpty then
          [String.mk [(r₀ :: rs).getLastD ' ']]
        else
          let r := captureUntil afterWs
          String.mk r.1 :: scanTagsAux fuel r.2
    | none => scanTagsAux fuel cs

/-- `re.findall(option_pattern, response, re.DOTALL)` followed by
`[opt.strip() for opt in options if opt.strip()]`. -/
def findTagOptions (s : String) : List String :=
  ((scanTagsAux s.data.length s.data).map DanmakuListener.strTrim).filter
    (fun o => !(o == ""))

/-- `re.match(r'^\d+[.、]\s*(.+?)$', line.strip())` with
`match.group(1).strip()`: on a stripped line, leading digits, a dot or
enumeration comma, and a non-empty remainder (whose strip is the
captured option). -/
def numberedLineOption (line : String) : Option String :=
  let t := DanmakuListener.strTrim line
  let digits := t.data.takeWhile Char.isDigit
  let rest := t.data.dropWhile Char.isDigit
  if digits.isEmpty then none
  else match rest with
    | c :: r =>
      if c = '.' ∨ c = '、' then
        if r.isEmpty then none
        else some (DanmakuListener.strTrim (String.mk r))
      else none
    | [] => none

/-- `response.split('\n')` on the character list. -/
def splitLines : List Char → List (List Char)
  | [] => [[]]
  | c :: cs =>
    let r := splitLines cs
    if c = '\n' then [] :: r
    else (c :: r.headD []) :: r.tail

/-- The numbered-line fallback loop of `_parse_story_response`. -/
def findNumberedOptions (s : String) : List String :=
  (splitLines s.data).filterMap (fun l => numberedLineOption (String.mk l))

/-- The fixed default option set. -/
def defaultOptions : List String :=
  ["继续探索", "原地修炼", "寻找机缘"]

/-- The options component of `AIStoryteller._parse_story_response`: tag
options first, the numbered-line fallback when none, and the fixed
default set when both match nothing.  (The story-text component strips
markers from the response and is not used by any claim.) -/
def parse_story_options (response : String) : List String :=
  let options := findTagOptions response
  let options := if options.isEmpty then findNumberedOptions response
    else options
  if options.isEmpty then defaultOptions else options

end AIStoryteller

/-! ## Theorems -/

namespace SortModel

theorem stableSortDescBy_perm {α : Type} (key : α → ℚ) (l : List α) :
    List.Perm (stableSortDescBy key l) l :=
  List.perm_insertionSort _ l

theorem stableSortDescBy_sorted {α : Type} (key : α → ℚ) (l : List α) :
    List.Sorted (descRel key) (stableSortDescBy key l) :=
  List.sorted_insertionSort _ l

theorem stableSortDescBy_mem {α : Type} (key : α → ℚ) {l : List α} {x : α} :
    x ∈ stableSortDescBy key l ↔ x ∈ l :=
  List.mem_insertionSort _

theorem stableSortDescBy_pair {α : Type} (key : α → ℚ) {l : List α} {a b : α}
    (hab : key b ≤ key a) (h : List.Sublist [a, b] l) :
    List.Sublist [a, b] (stableSortDescBy key l) :=
  List.pair_sublist_insertionSort hab h

end SortModel

/-- Claim C10: starting from a state with `0 ≤ hp ≤ max_hp` and
`0 ≤ mp ≤ max_mp` and a non-negative amount, `heal` and `restore_mp`
clamp at the respective maximum and return `min(maximum, current+amount) −
current`, `take_damage` floors hp at 0 and returns whether hp reached 0,
and each operation preserves the bounds. -/
theorem player_ops_clamp_and_preserve_bounds
    (p : PlayerM.Player) (amount damage : Int)
    (hb : PlayerM.InBounds p) (hamt : 0 ≤ amount) (hdmg : 0 ≤ damage) :
    ((PlayerM.heal p amount).2 = min p.max_hp (p.hp + amount) - p.hp
       ∧ PlayerM.InBounds (PlayerM.heal p amount).1)
    ∧ ((PlayerM.restore_mp p amount).2 = min p.max_mp (p.mp + amount) - p.mp
       ∧ PlayerM.InBounds (PlayerM.restore_mp p amount).1)
    ∧ ((PlayerM.take_damage p damage).1.hp = max 0 (p.hp - damage)
       ∧ ((PlayerM.take_damage p damage).2 = true ↔ (PlayerM.take_damage p damage).1.hp = 0)
       ∧ PlayerM.InBounds (PlayerM.take_damage p damage).1) := by
  obtain ⟨h1, h2, h3, h4⟩ := hb
  refine ⟨⟨rfl, ?_⟩, ⟨rfl, ?_⟩, rfl, ?_, ?_⟩
  · simp only [PlayerM.heal, PlayerM.InBounds]
    refine ⟨?_, ?_, h3, h4⟩ <;> omega
  · simp only [PlayerM.restore_mp, PlayerM.InBounds]
    refine ⟨h1, h2, ?_, ?_⟩ <;> omega
  · simp only [PlayerM.take_damage, decide_eq_true_eq]
    omega
  · simp only [PlayerM.take_damage, PlayerM.InBounds]
    refine ⟨?_, ?_, h3, h4⟩ <;> omega

/-- Witness for C10 at a concrete player state. -/
theorem player_ops_clamp_and_preserve_bounds_witness :
    PlayerM.InBounds ⟨80, 100, 20, 50⟩ ∧ (0 : Int) ≤ 30 ∧ (0 : Int) ≤ 95 ∧
    ((PlayerM.heal ⟨80, 100, 20, 50⟩ 30).2 = 20
      ∧ PlayerM.InBounds (PlayerM.heal ⟨80, 100, 20, 50⟩ 30).1) :=
  ⟨by decide, by decide, by decide, by
    have h := player_ops_clamp_and_preserve_bounds ⟨80, 100, 20, 50⟩ 30 95
      (by decide) (by decide) (by decide)
    exact ⟨h.1.1.trans (by decide), h.1.2⟩⟩

section VoteResolution

open DanmakuListener

/-- Guarded timer expiries are no-ops once the session is closed
(`_vote_timer` checks `if self.voting_active` before calling `end_vote`). -/
theorem timer_events_noop_when_closed (st : VoteManager) (n : Nat)
    (evs : List VoteEvent)
    (hall : ∀ e ∈ evs, e = VoteEvent.timerExpiry)
    (hclosed : st.voting_active = false) :
    evs.foldl stepEvent (st, n) = (st, n) := by
  induction evs with
  | nil => rfl
  | cons e es ih =>
    have he := hall e (List.mem_cons_self e es)
    subst he
    rw [List.foldl_cons]
    have hstep : stepEvent (st, n) VoteEvent.timerExpiry = (st, n) := by
      simp [stepEvent, hclosed]
    rw [hstep]
    exact ih (fun e' h' => hall e' (List.mem_cons_of_mem _ h'))

/-- Counterexample to claim C1: `end_vote` has no already-closed guard, so
a second direct `end_vote` call on the very same session fires the
resolution callback again — two explicit calls fire it twice, not once. -/
theorem end_vote_double_fire_counterexample :
    (runEvents
      (start_vote (initVoteManager 15) ["继续探索", "原地修炼"] true 0).1
      [VoteEvent.explicitEnd, VoteEvent.explicitEnd]).2 = 2
    ∧ ¬ (runEvents
      (start_vote (initVoteManager 15) ["继续探索", "原地修炼"] true 0).1
      [VoteEvent.explicitEnd, VoteEvent.explicitEnd]).2 = 1 := by
  constructor
  · rfl
  · decide

/-- Claim C1 (amended): over any invocation sequence whose first call is
either a direct `end_vote` or a timer expiry and whose subsequent calls
all come from the guarded timer path, the callback fires exactly once:
the first call closes the session and fires, and later timer expiries see
`voting_active == False` and do nothing.  (`end_vote` itself is not
idempotent: a repeated direct call fires the callback again, as the
counterexample shows.) -/
theorem end_vote_resolves_once_when_later_calls_are_timer_driven
    (s : VoteManager)
    (hopen : s.voting_active = true) (hcb : s.hasCallback = true)
    (e0 : VoteEvent) (evs : List VoteEvent)
    (hall : ∀ e ∈ evs, e = VoteEvent.timerExpiry) :
    (runEvents s (e0 :: evs)).2 = 1 := by
  have hstep : stepEvent (s, 0) e0 = ((end_vote s).state, 1) := by
    cases e0 <;> simp [stepEvent, end_vote, hopen, hcb]
  have hclosed : (end_vote s).state.voting_active = false := rfl
  unfold runEvents
  rw [List.foldl_cons, hstep,
    timer_events_noop_when_closed _ _ _ hall hclosed]

/-- Witness for the amended C1: a direct close followed by two timer
expiries fires the callback exactly once. -/
theorem end_vote_resolves_once_witness :
    (start_vote (initVoteManager 15) ["探索", "修炼"] true 0).1.voting_active = true
    ∧ (start_vote (initVoteManager 15) ["探索", "修炼"] true 0).1.hasCallback = true
    ∧ (runEvents (start_vote (initVoteManager 15) ["探索", "修炼"] true 0).1
        [VoteEvent.explicitEnd, VoteEvent.timerExpiry, VoteEvent.timerExpiry]).2 = 1 :=
  ⟨rfl, rfl,
    end_vote_resolves_once_when_later_calls_are_timer_driven _ rfl rfl
      VoteEvent.explicitEnd [VoteEvent.timerExpiry, VoteEvent.timerExpiry]
      (by decide)⟩

/-- Counterexample to claim C5: `start_vote` has no already-open guard.
Called while a session is Open (with one ballot already recorded for
option 1), it replaces the ballots with fresh empty ones for the new
options and returns `vote_duration` — it is not a rejected no-op. -/
theorem start_vote_not_rejected_counterexample :
    (process_danmaku (start_vote (initVoteManager 15) ["探索", "战斗"] true 0).1
      ⟨"mock", "u1", "甲", "1"⟩).1.voting_active = true
    ∧ (start_vote
        (process_danmaku (start_vote (initVoteManager 15) ["探索", "战斗"] true 0).1
          ⟨"mock", "u1", "甲", "1"⟩).1
        ["撤退"] true 5).1.votes
      ≠ (process_danmaku (start_vote (initVoteManager 15) ["探索", "战斗"] true 0).1
          ⟨"mock", "u1", "甲", "1"⟩).1.votes
    ∧ (start_vote
        (process_danmaku (start_vote (initVoteManager 15) ["探索", "战斗"] true 0).1
          ⟨"mock", "u1", "甲", "1"⟩).1
        ["撤退"] true 5).2 = 15 := by
  refine ⟨by decide, by decide, by decide⟩

/-- Claim C5 (amended): `start_vote` never rejects.  Whatever the prior
state — in particular, even while a session is Open — it installs fresh
empty ballots keyed by the new options' ordinals, rebuilds the match
patterns, marks the session active, records the new start time and
callback, and returns `vote_duration`; the result does not depend on the
prior session at all (only on the configured duration). -/
theorem start_vote_always_replaces
    (s₁ s₂ : VoteManager) (options : List String) (cb : Bool) (now : Nat)
    (hd : s₁.vote_duration = s₂.vote_duration) :
    start_vote s₁ options cb now = start_vote s₂ options cb now
    ∧ (start_vote s₁ options cb now).1.votes
        = (List.range options.length).map (fun i => (toString (i + 1), ([] : Ballots)))
    ∧ (start_vote s₁ options cb now).1.voting_active = true
    ∧ (start_vote s₁ options cb now).2 = s₁.vote_duration := by
  refine ⟨?_, rfl, rfl, rfl⟩
  cases s₁
  cases s₂
  simp_all [start_vote]

/-- Witness for the amended C5: starting a vote while another is open, on
a session holding a recorded ballot, yields the same fresh session as
starting from an idle manager. -/
theorem start_vote_always_replaces_witness :
    (process_danmaku (start_vote (initVoteManager 15) ["探索", "战斗"] true 0).1
        ⟨"mock", "u1", "甲", "1"⟩).1.vote_duration = (initVoteManager 15).vote_duration
    ∧ start_vote
        (process_danmaku (start_vote (initVoteManager 15) ["探索", "战斗"] true 0).1
          ⟨"mock", "u1", "甲", "1"⟩).1 ["撤退"] true 5
      = start_vote (initVoteManager 15) ["撤退"] true 5 :=
  ⟨by decide,
    (start_vote_always_replaces _ (initVoteManager 15) ["撤退"] true 5 (by decide)).1⟩

end VoteResolution

section WinnerSelection

open DanmakuListener

/-- The running best of the `max` scan never decreases. -/
theorem le_maxByFirst (best : String × Nat) (cs : List (String × Nat)) :
    best.2 ≤ (maxByFirst best cs).2 := by
  induction cs generalizing best with
  | nil => exact le_refl _
  | cons c cs ih =>
    unfold maxByFirst
    by_cases h : best.2 < c.2
    · rw [if_pos h]
      exact le_of_lt (lt_of_lt_of_le h (ih c))
    · rw [if_neg h]
      exact ih best

/-- The `max` scan splits its input around the returned entry: everything
before it counts strictly less, everything after counts at most as much —
i.e. the first entry attaining the maximum is returned. -/
theorem maxByFirst_decomp (best : String × Nat) (cs : List (String × Nat)) :
    ∃ l₁ l₂, best :: cs = l₁ ++ maxByFirst best cs :: l₂
      ∧ (∀ p ∈ l₁, p.2 < (maxByFirst best cs).2)
      ∧ (∀ p ∈ l₂, p.2 ≤ (maxByFirst best cs).2) := by
  induction cs generalizing best with
  | nil =>
    exact ⟨[], [], rfl, fun p hp => absurd hp (List.not_mem_nil p),
      fun p hp => absurd hp (List.not_mem_nil p)⟩
  | cons c cs ih =>
    unfold maxByFirst
    by_cases h : best.2 < c.2
    · rw [if_pos h]
      obtain ⟨l₁, l₂, heq, h₁, h₂⟩ := ih c
      refine ⟨best :: l₁, l₂, ?_, ?_, h₂⟩
      · rw [List.cons_append, ← heq]
      · intro p hp
        rcases List.mem_cons.mp hp with hp | hp
        · subst hp
          exact lt_of_lt_of_le h (le_maxByFirst c cs)
        · exact h₁ p hp
    · rw [if_neg h]
      obtain ⟨l₁, l₂, heq, h₁, h₂⟩ := ih best
      cases l₁ with
      | nil =>
        simp only [List.nil_append] at heq
        have hbest : maxByFirst best cs = best := (List.cons.injEq _ _ _ _ ▸ heq).1.symm
        have hl₂ : cs = l₂ := (List.cons.injEq _ _ _ _ ▸ heq).2
        refine ⟨[], c :: cs, by rw [List.nil_append, hbest], h₁, ?_⟩
        intro p hp
        rcases List.mem_cons.mp hp with hp | hp
        · subst hp
          rw [hbest]
          exact le_of_not_lt h
        · exact hl₂ ▸ h₂ p (hl₂ ▸ hp)
      | cons b l₁' =>
        rw [List.cons_append] at heq
        have hb : best = b := (List.cons.injEq _ _ _ _ ▸ heq).1
        have hcs : cs = l₁' ++ maxByFirst best cs :: l₂ :=
          (List.cons.injEq _ _ _ _ ▸ heq).2
        have hbm : best.2 < (maxByFirst best cs).2 := by
          have := h₁ b (List.mem_cons_self b l₁')
          rw [← hb] at this
          exact this
        refine ⟨best :: c :: l₁', l₂, ?_, ?_, h₂⟩
        · rw [List.cons_append, List.cons_append, ← hcs]
        · intro p hp
          rcases List.mem_cons.mp hp with hp | hp
          · subst hp
            exact hbm
          · rcases List.mem_cons.mp hp with hp | hp
            · subst hp
              exact lt_of_le_of_lt (le_of_not_lt h) hbm
            · exact h₁ p (List.mem_cons_of_mem b hp)

/-- If nothing beats the initial best, the scan returns it. -/
theorem maxByFirst_const (best : String × Nat) (cs : List (String × Nat))
    (h : ∀ p ∈ cs, p.2 ≤ best.2) : maxByFirst best cs = best := by
  induction cs generalizing best with
  | nil => rfl
  | cons c cs ih =>
    unfold maxByFirst
    rw [if_neg (not_lt.mpr (h c (List.mem_cons_self c cs)))]
    exact ih best (fun p hp => h p (List.mem_cons_of_mem c hp))

/-- Claim C3: `end_vote` declares as winner an option with the maximal
ballot count; among tied maxima the earliest key in the (ordinal-ordered)
counts dict — i.e. the lowest ordinal — wins, which the decomposition
below expresses as: strictly smaller counts before the winner, no larger
count after it.  With zero ballots cast the winner is the first declared
option, key `"1"`. -/
theorem end_vote_winner_selection (s : VoteManager)
    (hne : s.votes ≠ [])
    (hkeys : s.votes.map Prod.fst = ordKeys s.votes.length) :
    (∃ l₁ w l₂, (end_vote s).counts = l₁ ++ ((end_vote s).winner, w) :: l₂
        ∧ (∀ p ∈ l₁, p.2 < w) ∧ (∀ p ∈ l₂, p.2 ≤ w))
    ∧ (end_vote s).counts.map Prod.fst = ordKeys s.votes.length
    ∧ ((∀ kv ∈ s.votes, kv.2 = ([] : Ballots)) → (end_vote s).winner = "1") := by
  have hcounts : (end_vote s).counts = s.votes.map (fun kv => (kv.1, kv.2.length)) := rfl
  have hmapfst : (end_vote s).counts.map Prod.fst = s.votes.map Prod.fst := by
    rw [hcounts, List.map_map]
    rfl
  obtain ⟨kv₀, votes', hv⟩ := List.exists_cons_of_ne_nil hne
  have hc : (end_vote s).counts
      = (kv₀.1, kv₀.2.length) :: votes'.map (fun kv => (kv.1, kv.2.length)) := by
    rw [hcounts, hv, List.map_cons]
  have hwinner : (end_vote s).winner
      = (maxByFirst (kv₀.1, kv₀.2.length)
          (votes'.map (fun kv => (kv.1, kv.2.length)))).1 := by
    show winnerOf (end_vote s).counts = _
    rw [hc]
    rfl
  refine ⟨?_, hmapfst.trans hkeys, ?_⟩
  · obtain ⟨l₁, l₂, heq, h₁, h₂⟩ :=
      maxByFirst_decomp (kv₀.1, kv₀.2.length)
        (votes'.map (fun kv => (kv.1, kv.2.length)))
    refine ⟨l₁,
      (maxByFirst (kv₀.1, kv₀.2.length) (votes'.map (fun kv => (kv.1, kv.2.length)))).2,
      l₂, ?_, h₁, h₂⟩
    rw [hc, heq, hwinner]
  · intro hz
    have hall : ∀ p ∈ votes'.map (fun kv => (kv.1, kv.2.length)),
        p.2 ≤ (kv₀.1, kv₀.2.length).2 := by
      intro p hp
      obtain ⟨kv, hkv, hpe⟩ := List.mem_map.mp hp
      have : kv.2 = [] := hz kv (hv ▸ List.mem_cons_of_mem kv₀ hkv)
      subst hpe
      simp [this]
    rw [hwinner, maxByFirst_const _ _ hall]
    rw [hv] at hkeys
    simp only [List.map_cons, List.length_cons, ordKeys, List.range_succ_eq_map,
      List.map_cons] at hkeys
    have h1 : kv₀.1 = toString (0 + 1) := (List.cons.injEq _ _ _ _ ▸ hkeys).1
    show kv₀.1 = "1"
    rw [h1]
    decide

/-- Witness for C3 on a concrete session: ballots {1: 1 vote, 2: 2 votes,
3: 0 votes} give winner "2"; on a fresh session with zero ballots the
winner is "1". -/
theorem end_vote_winner_selection_witness :
    (end_vote
      { vote_duration := 15,
        votes := [("1", [("u1", "甲")]), ("2", [("u2", "乙"), ("u3", "丙")]), ("3", [])],
        option_patterns := [], voting_active := true,
        vote_start_time := some 0, hasCallback := true }).winner = "2"
    ∧ (end_vote (start_vote (initVoteManager 15) ["探索", "修炼"] true 0).1).winner = "1" := by
  constructor
  · have h := end_vote_winner_selection
      { vote_duration := 15,
        votes := [("1", [("u1", "甲")]), ("2", [("u2", "乙"), ("u3", "丙")]), ("3", [])],
        option_patterns := [], voting_active := true,
        vote_start_time := some 0, hasCallback := true }
      (by decide) (by decide)
    obtain ⟨⟨l₁, w, l₂, heq, h₁, h₂⟩, _, _⟩ := h
    decide
  · have h := end_vote_winner_selection
      (start_vote (initVoteManager 15) ["探索", "修炼"] true 0).1
      (by decide) (by decide)
    exact h.2.2 (by decide)

end WinnerSelection

section BallotMovement

open DanmakuListener

/-- A voter other than the removed one is unaffected by the removal filter. -/
theorem userIn_filter_ne {u uid : String} (m : Ballots) (hne : u ≠ uid) :
    UserIn u (m.filter (fun p => p.1 != uid)) ↔ UserIn u m := by
  simp only [UserIn, List.mem_map, List.mem_filter, bne_iff_ne]
  constructor
  · rintro ⟨p, ⟨hp, _⟩, hu⟩
    exact ⟨p, hp, hu⟩
  · rintro ⟨p, hp, hu⟩
    exact ⟨p, ⟨hp, by rw [hu]; exact hne⟩, hu⟩

/-- The removal filter removes every ballot of the removed voter. -/
theorem userIn_filter_self (m : Ballots) (uid : String) :
    ¬ UserIn uid (m.filter (fun p => p.1 != uid)) := by
  simp only [UserIn, List.mem_map, List.mem_filter, bne_iff_ne]
  rintro ⟨p, ⟨_, hne⟩, hu⟩
  exact hne hu

/-- Membership after appending one ballot entry. -/
theorem userIn_append (u a b : String) (m : Ballots) :
    UserIn u (m ++ [(a, b)]) ↔ UserIn u m ∨ u = a := by
  simp only [UserIn, List.map_append, List.mem_append, List.map_cons,
    List.map_nil, List.mem_singleton]

/-- `recordVote` keeps the option keys unchanged. -/
theorem recordVote_keys (votes : List (String × Ballots)) (k uid uname : String) :
    (recordVote votes k uid uname).map Prod.fst = votes.map Prod.fst := by
  unfold recordVote removeUserVotes
  rw [List.map_map, List.map_map]
  rfl

/-- After `recordVote`, the recording voter's ballot sits exactly in the
entries keyed by the recorded option. -/
theorem recordVote_userIn_self (votes : List (String × Ballots))
    (k uid uname : String) :
    ∀ kv ∈ recordVote votes k uid uname, (UserIn uid kv.2 ↔ kv.1 = k) := by
  intro kv hkv
  unfold recordVote removeUserVotes at hkv
  rw [List.map_map] at hkv
  obtain ⟨kv₀, _, hkv⟩ := List.mem_map.mp hkv
  subst hkv
  simp only [Function.comp]
  by_cases hk : kv₀.1 == k
  · rw [if_pos hk]
    simp only [beq_iff_eq] at hk
    simp [hk, userIn_append]
  · rw [if_neg hk]
    simp only [beq_iff_eq] at hk
    refine ⟨fun h => absurd h (userIn_filter_self kv₀.2 uid), fun h => absurd h hk⟩

/-- Every entry of `recordVote votes k uid uname` comes from an entry of
`votes` with the same key whose ballots agree on every voter other than
the recording one. -/
theorem recordVote_userIn_other (votes : List (String × Ballots))
    (k uid uname u : String) (hne : u ≠ uid) :
    ∀ kv' ∈ recordVote votes k uid uname,
      ∃ kv ∈ votes, kv'.1 = kv.1 ∧ (UserIn u kv'.2 ↔ UserIn u kv.2) := by
  intro kv' hkv'
  unfold recordVote removeUserVotes at hkv'
  rw [List.map_map] at hkv'
  obtain ⟨kv₀, hkv₀, hkv'⟩ := List.mem_map.mp hkv'
  subst hkv'
  refine ⟨kv₀, hkv₀, rfl, ?_⟩
  simp only [Function.comp]
  by_cases hk : kv₀.1 == k
  · rw [if_pos hk, userIn_append]
    rw [userIn_filter_ne kv₀.2 hne]
    exact ⟨fun h => h.resolve_right hne, Or.inl⟩
  · rw [if_neg hk]
    exact userIn_filter_ne kv₀.2 hne

end BallotMovement

section BallotSemantics

open DanmakuListener

/-- When every option whose patterns match the content already holds the
voter's ballot (in particular on a repeat vote for the voter's current
option), the scan finds nothing. -/
theorem findVoteKey_none_of_all_contained (s : VoteManager) (content uid : String)
    (hall : ∀ kp ∈ s.option_patterns, patternMatches content kp.2 = true →
      dictContains (voteLookup s.votes kp.1) uid = true) :
    findVoteKey s content uid = none := by
  unfold findVoteKey
  rw [List.find?_eq_none.mpr]
  · rfl
  · intro kp hkp hcond
    rw [Bool.and_eq_true, Bool.not_eq_true'] at hcond
    rw [hall kp hkp hcond.1] at hcond
    exact absurd hcond.2 (by decide)

/-- The key returned by the scan is one of the declared option keys. -/
theorem findVoteKey_mem (s : VoteManager) (content uid k : String)
    (h : findVoteKey s content uid = some k) :
    k ∈ s.option_patterns.map Prod.fst := by
  unfold findVoteKey at h
  obtain ⟨kp, hkp, hk⟩ := Option.map_eq_some'.mp h
  exact hk ▸ List.mem_map_of_mem Prod.fst (List.mem_of_find?_eq_some hkp)

/-- Claim C2: `process_danmaku` preserves the one-ballot-per-voter
invariant and never changes the set of option keys; when it records a
vote for option `k`, the voter's ballot afterwards sits exactly in option
`k` (moved, not duplicated); when it records nothing it leaves the state
untouched, and a message all of whose matching options already hold the
voter's ballot (a repeat vote) records nothing. -/
theorem process_danmaku_moves_ballot (s : VoteManager) (msg : DanmakuMessage)
    (hinv : BallotInvariant s.votes)
    (hkeys : s.option_patterns.map Prod.fst = s.votes.map Prod.fst) :
    BallotInvariant (process_danmaku s msg).1.votes
    ∧ (process_danmaku s msg).1.votes.map Prod.fst = s.votes.map Prod.fst
    ∧ (∀ k, (process_danmaku s msg).2 = some k →
        k ∈ s.votes.map Prod.fst
        ∧ ∀ kv ∈ (process_danmaku s msg).1.votes,
            (UserIn msg.user_id kv.2 ↔ kv.1 = k))
    ∧ ((process_danmaku s msg).2 = none → (process_danmaku s msg).1 = s)
    ∧ ((∀ kp ∈ s.option_patterns,
          patternMatches (strTrim msg.content) kp.2 = true →
          dictContains (voteLookup s.votes kp.1) msg.user_id = true) →
        (process_danmaku s msg).2 = none) := by
  by_cases hact : s.voting_active
  · cases hfind : findVoteKey s (strTrim msg.content) msg.user_id with
    | none =>
      have hres : process_danmaku s msg = (s, none) := by
        unfold process_danmaku
        simp [hact, hfind]
      rw [hres]
      refine ⟨hinv, rfl, ?_, fun _ => rfl, fun _ => rfl⟩
      intro k hk
      exact Option.noConfusion (show (none : Option String) = some k from hk)
    | some k =>
      have hres : process_danmaku s msg =
          ({ s with votes := recordVote s.votes k msg.user_id msg.username },
           some k) := by
        unfold process_danmaku
        simp [hact, hfind]
      rw [hres]
      refine ⟨?_, recordVote_keys _ _ _ _, ?_, ?_, ?_⟩
      · intro u kv₁ kv₂ h₁ h₂ hu₁ hu₂
        by_cases hu : u = msg.user_id
        · subst hu
          exact ((recordVote_userIn_self _ _ _ _ kv₁ h₁).mp hu₁).trans
            (((recordVote_userIn_self _ _ _ _ kv₂ h₂).mp hu₂).symm)
        · obtain ⟨kv₁₀, hm₁, hk₁, hiff₁⟩ :=
            recordVote_userIn_other s.votes k msg.user_id msg.username u hu kv₁ h₁
          obtain ⟨kv₂₀, hm₂, hk₂, hiff₂⟩ :=
            recordVote_userIn_other s.votes k msg.user_id msg.username u hu kv₂ h₂
          rw [hk₁, hk₂]
          exact hinv u kv₁₀ kv₂₀ hm₁ hm₂ (hiff₁.mp hu₁) (hiff₂.mp hu₂)
      · intro k' hk'
        have hkk : some k = some k' := hk'
        injection hkk with hkk
        subst hkk
        refine ⟨hkeys ▸ findVoteKey_mem s _ _ k hfind, ?_⟩
        exact recordVote_userIn_self s.votes k msg.user_id msg.username
      · intro h
        exact Option.noConfusion (show some k = (none : Option String) from h)
      · intro hall
        rw [findVoteKey_none_of_all_contained s _ _ hall] at hfind
        exact Option.noConfusion hfind
  · have hres : process_danmaku s msg = (s, none) := by
      unfold process_danmaku
      simp [Bool.not_eq_true] at hact
      simp [hact]
    rw [hres]
    refine ⟨hinv, rfl, ?_, fun _ => rfl, fun _ => rfl⟩
    intro k hk
    exact Option.noConfusion (show (none : Option String) = some k from hk)

/-- Witness for C2: in a two-option session where voter u1 voted for
option 1, a danmaku "2" moves u1's ballot: afterwards u1 sits exactly in
option 2's ballot dict. -/
theorem process_danmaku_moves_ballot_witness :
    BallotInvariant (process_danmaku
      (start_vote (initVoteManager 15) ["探索", "战斗"] true 0).1
      ⟨"mock", "u1", "甲", "1"⟩).1.votes
    ∧ (process_danmaku
        (process_danmaku (start_vote (initVoteManager 15) ["探索", "战斗"] true 0).1
          ⟨"mock", "u1", "甲", "1"⟩).1
        ⟨"mock", "u1", "甲", "2"⟩).2 = some "2"
    ∧ ∀ kv ∈ (process_danmaku
        (process_danmaku (start_vote (initVoteManager 15) ["探索", "战斗"] true 0).1
          ⟨"mock", "u1", "甲", "1"⟩).1
        ⟨"mock", "u1", "甲", "2"⟩).1.votes,
        (UserIn "u1" kv.2 ↔ kv.1 = "2") := by
  have hv : (start_vote (initVoteManager 15) ["探索", "战斗"] true 0).1.votes
      = [("1", []), ("2", [])] := by decide
  have hinv0 : BallotInvariant
      (start_vote (initVoteManager 15) ["探索", "战斗"] true 0).1.votes := by
    rw [hv]
    intro uid kv₁ kv₂ h₁ h₂ hu₁ hu₂
    fin_cases h₁ <;> fin_cases h₂ <;> simp_all [UserIn]
  have h0 := process_danmaku_moves_ballot
    (start_vote (initVoteManager 15) ["探索", "战斗"] true 0).1
    ⟨"mock", "u1", "甲", "1"⟩ hinv0 (by decide)
  have h1 := process_danmaku_moves_ballot
    (process_danmaku (start_vote (initVoteManager 15) ["探索", "战斗"] true 0).1
      ⟨"mock", "u1", "甲", "1"⟩).1
    ⟨"mock", "u1", "甲", "2"⟩ h0.1 (by decide)
  exact ⟨h0.1, by decide, (h1.2.2.1 "2" (by decide)).2⟩

end BallotSemantics

section GiftTiers

open GiftSystem

/-- Scanning a descending-sorted tier list for the first threshold at or
below the value yields a maximal qualifying tier; a failed scan means the
value is below every threshold. -/
theorem find?_max_of_sorted (l : List GiftEffect) (v : ℚ)
    (hs : List.Sorted (SortModel.descRel (fun e => e.min_value)) l) :
    (∀ e, l.find? (fun e => decide (e.min_value ≤ v)) = some e →
       e ∈ l ∧ e.min_value ≤ v
         ∧ ∀ t ∈ l, t.min_value ≤ v → t.min_value ≤ e.min_value)
    ∧ (l.find? (fun e => decide (e.min_value ≤ v)) = none →
        ∀ t ∈ l, v < t.min_value) := by
  induction l with
  | nil =>
    exact ⟨fun e he => Option.noConfusion he,
      fun _ t ht => absurd ht (List.not_mem_nil t)⟩
  | cons x xs ih =>
    have hx : ∀ b ∈ xs, b.min_value ≤ x.min_value :=
      fun b hb => List.rel_of_sorted_cons hs b hb
    have ih' := ih hs.of_cons
    by_cases hpx : x.min_value ≤ v
    · rw [List.find?_cons_of_pos _ (by simpa using hpx)]
      refine ⟨?_, fun hnone => absurd hnone (by simp)⟩
      intro e he
      injection he with he
      subst he
      refine ⟨List.mem_cons_self x xs, hpx, ?_⟩
      intro t ht _
      rcases List.mem_cons.mp ht with h | h
      · exact h ▸ le_refl x.min_value
      · exact hx t h
    · rw [List.find?_cons_of_neg _ (by simpa using hpx)]
      constructor
      · intro e he
        obtain ⟨hmem, hle, hmax⟩ := ih'.1 e he
        refine ⟨List.mem_cons_of_mem x hmem, hle, ?_⟩
        intro t ht htv
        rcases List.mem_cons.mp ht with h | h
        · exact absurd (h ▸ htv) hpx
        · exact hmax t h htv
      · intro hnone t ht
        rcases List.mem_cons.mp ht with h | h
        · exact h ▸ lt_of_not_le hpx
        · exact ih'.2 hnone t h

/-- `_determine_effect` returns a qualifying tier of maximal threshold,
and returns nothing exactly when the value is below every threshold. -/
theorem determine_effect_spec (v : ℚ) :
    (∀ e, determine_effect v = some e →
       e ∈ giftEffects ∧ e.min_value ≤ v
         ∧ ∀ t ∈ giftEffects, t.min_value ≤ v → t.min_value ≤ e.min_value)
    ∧ ((∀ t ∈ giftEffects, v < t.min_value) → determine_effect v = none)
    ∧ (determine_effect v = none → ∀ t ∈ giftEffects, v < t.min_value) := by
  have hs := SortModel.stableSortDescBy_sorted
    (fun e : GiftEffect => e.min_value) giftEffects
  have h := find?_max_of_sorted _ v hs
  refine ⟨?_, ?_, ?_⟩
  · intro e he
    obtain ⟨hmem, hle, hmax⟩ := h.1 e he
    exact ⟨(SortModel.stableSortDescBy_mem _).mp hmem, hle,
      fun t ht htv => hmax t ((SortModel.stableSortDescBy_mem _).mpr ht) htv⟩
  · intro hall
    cases hfind : determine_effect v with
    | none => rfl
    | some e =>
      obtain ⟨hmem, hle, _⟩ := h.1 e hfind
      exact absurd hle (not_le.mpr (hall e ((SortModel.stableSortDescBy_mem _).mp hmem)))
  · intro hnone t ht
    exact h.2 hnone t ((SortModel.stableSortDescBy_mem _).mpr ht)

/-- `_update_rankings` rewrites only the rank field: every donor survives
with identity and accumulators intact. -/
theorem update_rankings_fields (stats : List DonorStats) :
    ∀ d ∈ stats, ∃ d' ∈ update_rankings stats,
      statKey d' = statKey d ∧ d'.total_value = d.total_value
      ∧ d'.total_gifts = d.total_gifts ∧ d'.last_gift_time = d.last_gift_time := by
  intro d hd
  exact ⟨_, List.mem_map_of_mem _ hd, rfl, rfl, rfl, rfl⟩

/-- `_update_donor_stats` creates the donor's record on first sight and
accumulates value, count and last-gift time. -/
theorem update_donor_stats_updates (stats : List DonorStats)
    (gift : GiftMessage) (value : ℚ) (now : Nat) :
    ∃ d ∈ update_donor_stats stats gift value now,
      statKey d = gift.platform ++ "_" ++ gift.user_id
      ∧ d.total_value = donorTotal stats (gift.platform ++ "_" ++ gift.user_id) + value
      ∧ d.total_gifts = donorGifts stats (gift.platform ++ "_" ++ gift.user_id) + gift.gift_count
      ∧ d.last_gift_time = now := by
  unfold update_donor_stats
  cases hfind : stats.find?
      (fun d => statKey d == gift.platform ++ "_" ++ gift.user_id) with
  | none =>
    have hno := List.find?_eq_none.mp hfind
    have hany : stats.any
        (fun d => statKey d == gift.platform ++ "_" ++ gift.user_id) = false := by
      cases hany : stats.any
          (fun d => statKey d == gift.platform ++ "_" ++ gift.user_id) with
      | false => rfl
      | true =>
        obtain ⟨d, hd, hp⟩ := List.any_eq_true.mp hany
        exact absurd hp (hno d hd)
    simp only [hany, Bool.false_eq_true, if_false]
    set fresh : DonorStats :=
      { user_id := gift.user_id, username := gift.username,
        platform := gift.platform, total_value := 0,
        total_gifts := 0, last_gift_time := 0, contribution_rank := 0 } with hfresh
    have hkey : (statKey fresh == gift.platform ++ "_" ++ gift.user_id) = true := by
      simp [hfresh, statKey]
    have hmem₂ : ({ fresh with
        total_value := fresh.total_value + value,
        total_gifts := fresh.total_gifts + gift.gift_count,
        last_gift_time := now,
        username := gift.username } : DonorStats)
        ∈ (stats ++ [fresh]).map (fun d =>
          if statKey d == gift.platform ++ "_" ++ gift.user_id then
            { d with total_value := d.total_value + value,
                     total_gifts := d.total_gifts + gift.gift_count,
                     last_gift_time := now,
                     username := gift.username }
          else d) := by
      have hin : fresh ∈ stats ++ [fresh] :=
        List.mem_append_right stats (List.mem_singleton.mpr rfl)
      exact List.mem_map.mpr ⟨fresh, hin, by simp [hkey]⟩
    obtain ⟨d', hd', hk', hv', hg', ht'⟩ := update_rankings_fields _ _ hmem₂
    refine ⟨d', hd', ?_, ?_, ?_, ht'⟩
    · rw [hk']
      simp [hfresh, statKey]
    · rw [hv']
      simp [donorTotal, hfind, hfresh]
    · rw [hg']
      simp [donorGifts, hfind, hfresh]
  | some d₀ =>
    have hp := List.find?_some hfind
    have hmem := List.mem_of_find?_eq_some hfind
    have hany : stats.any
        (fun d => statKey d == gift.platform ++ "_" ++ gift.user_id) = true :=
      List.any_eq_true.mpr ⟨d₀, hmem, hp⟩
    simp only [hany, if_true]
    have hmem₂ : ({ d₀ with
        total_value := d₀.total_value + value,
        total_gifts := d₀.total_gifts + gift.gift_count,
        last_gift_time := now,
        username := gift.username } : DonorStats)
        ∈ stats.map (fun d =>
          if statKey d == gift.platform ++ "_" ++ gift.user_id then
            { d with total_value := d.total_value + value,
                     total_gifts := d.total_gifts + gift.gift_count,
                     last_gift_time := now,
                     username := gift.username }
          else d) := by
      exact List.mem_map.mpr ⟨d₀, hmem, by simp [hp]⟩
    obtain ⟨d', hd', hk', hv', hg', ht'⟩ := update_rankings_fields _ _ hmem₂
    refine ⟨d', hd', ?_, ?_, ?_, ht'⟩
    · rw [hk']
      exact beq_iff_eq.mp hp
    · rw [hv']
      simp [donorTotal, hfind]
    · rw [hg']
      simp [donorGifts, hfind]

/-- Claim C4: `process_gift` computes total value `V = gift_value ×
gift_count`; any triggered tier is a qualifying tier of maximal
`min_value`; when `V` is below every tier's threshold it returns `None`,
appends no `GiftRecord`, enqueues no pending effect and grants no rename;
when `V` reaches at least one tier's threshold it does trigger a tier
(the result is `some`, and by the first conjunct that tier is the
maximal qualifying one) — and in every case the donor's stats are
created/updated with the accumulated value, count and last-seen time. -/
theorem process_gift_tier_and_stats (gp : GiftProcessor) (gift : GiftMessage)
    (now : Nat) :
    (∀ e, (process_gift gp gift now).2 = some e →
        e ∈ giftEffects
        ∧ e.min_value ≤ gift.gift_value * (gift.gift_count : ℚ)
        ∧ ∀ t ∈ giftEffects,
            t.min_value ≤ gift.gift_value * (gift.gift_count : ℚ) →
            t.min_value ≤ e.min_value)
    ∧ ((∀ t ∈ giftEffects, gift.gift_value * (gift.gift_count : ℚ) < t.min_value) →
        (process_gift gp gift now).2 = none
        ∧ (process_gift gp gift now).1.records = gp.records
        ∧ (process_gift gp gift now).1.pending_effects = gp.pending_effects
        ∧ (process_gift gp gift now).1.pending_rename = gp.pending_rename)
    ∧ ((∃ t ∈ giftEffects, t.min_value ≤ gift.gift_value * (gift.gift_count : ℚ)) →
        ∃ e, (process_gift gp gift now).2 = some e)
    ∧ (∃ d ∈ (process_gift gp gift now).1.donor_stats,
        statKey d = gift.platform ++ "_" ++ gift.user_id
        ∧ d.total_value
            = donorTotal gp.donor_stats (gift.platform ++ "_" ++ gift.user_id)
              + gift.gift_value * (gift.gift_count : ℚ)
        ∧ d.total_gifts
            = donorGifts gp.donor_stats (gift.platform ++ "_" ++ gift.user_id)
              + gift.gift_count
        ∧ d.last_gift_time = now) := by
  cases hdet : determine_effect (gift.gift_value * (gift.gift_count : ℚ)) with
  | none =>
    have hres : process_gift gp gift now =
        ({ gp with donor_stats := (update_donor_stats gp.donor_stats gift (gift.gift_value * (gift.gift_count : ℚ)) now) }, none) := by
      unfold process_gift
      simp [hdet]
    rw [hres]
    refine ⟨?_, fun _ => ⟨rfl, rfl, rfl, rfl⟩, ?_, ?_⟩
    · intro e he
      exact Option.noConfusion (show (none : Option GiftEffect) = some e from he)
    · rintro ⟨t, ht, htv⟩
      exact absurd htv (not_le.mpr ((determine_effect_spec _).2.2 hdet t ht))
    · exact update_donor_stats_updates gp.donor_stats gift _ now
  | some e =>
    have hres : (process_gift gp gift now).2 = some e ∧
        (process_gift gp gift now).1.donor_stats =
          update_donor_stats gp.donor_stats gift
            (gift.gift_value * (gift.gift_count : ℚ)) now := by
      unfold process_gift
      simp [hdet]
    refine ⟨?_, ?_, fun _ => ⟨e, hres.1⟩, ?_⟩
    · intro e' he'
      have : some e = some e' := hres.1 ▸ he'
      injection this with hee
      subst hee
      exact (determine_effect_spec _).1 e hdet
    · intro hall
      rw [(determine_effect_spec _).2.1 hall] at hdet
      exact Option.noConfusion hdet
    · rw [hres.2]
      exact update_donor_stats_updates gp.donor_stats gift _ now

unseal Rat.add Rat.mul Rat.inv Rat.sub in
/-- Witness for C4: a 0.01-value gift lies below every tier, triggers no
effect, leaves the audit trail and queues empty, yet creates the donor's
stats with the accumulated value; a 5-value gift reaches a threshold and
does trigger a tier. -/
theorem process_gift_tier_and_stats_witness :
    (∀ t ∈ GiftSystem.giftEffects,
        (1/100 : ℚ) * ((1 : Nat) : ℚ) < t.min_value)
    ∧ (process_gift initGiftProcessor ⟨"mock", "u9", "丁", "小心心", 1, 1/100⟩ 3).2 = none
    ∧ (process_gift initGiftProcessor ⟨"mock", "u9", "丁", "小心心", 1, 1/100⟩ 3).1.records = []
    ∧ (process_gift initGiftProcessor
        ⟨"mock", "u9", "丁", "小心心", 1, 1/100⟩ 3).1.pending_effects = []
    ∧ (∃ d ∈ (process_gift initGiftProcessor
        ⟨"mock", "u9", "丁", "小心心", 1, 1/100⟩ 3).1.donor_stats,
        statKey d = "mock" ++ "_" ++ "u9"
        ∧ d.total_value = donorTotal [] ("mock" ++ "_" ++ "u9") + (1/100 : ℚ) * ((1 : Nat) : ℚ))
    ∧ (∃ t ∈ GiftSystem.giftEffects,
        t.min_value ≤ (5 : ℚ) * ((1 : Nat) : ℚ))
    ∧ ∃ e, (process_gift initGiftProcessor
        ⟨"mock", "u8", "丙", "火箭", 1, 5⟩ 4).2 = some e := by
  have h := process_gift_tier_and_stats initGiftProcessor
    ⟨"mock", "u9", "丁", "小心心", 1, 1/100⟩ 3
  have h5 := process_gift_tier_and_stats initGiftProcessor
    ⟨"mock", "u8", "丙", "火箭", 1, 5⟩ 4
  have hall : ∀ t ∈ GiftSystem.giftEffects,
      (1/100 : ℚ) * ((1 : Nat) : ℚ) < t.min_value := by decide
  have hex : ∃ t ∈ GiftSystem.giftEffects,
      t.min_value ≤ (5 : ℚ) * ((1 : Nat) : ℚ) := by decide
  obtain ⟨d, hd, hk, hv, _, _⟩ := h.2.2.2
  exact ⟨hall, (h.2.1 hall).1, (h.2.1 hall).2.1, (h.2.1 hall).2.2.1,
    ⟨d, hd, hk, hv⟩, hex, h5.2.2.1 hex⟩

end GiftTiers

section RankingOrder

open GiftSystem

/-- In a list with pairwise distinct keys, searching for the key of the
element at position `p` finds exactly position `p`. -/
theorem findIdx_eq_of_nodup_keys {α β : Type} [BEq β] [LawfulBEq β] (f : α → β) :
    ∀ (l : List α) (p : Nat) (hp : p < l.length), (l.map f).Nodup →
      l.findIdx (fun e => f e == f (l.get ⟨p, hp⟩)) = p := by
  intro l
  induction l with
  | nil => intro p hp; exact absurd hp (Nat.not_lt_zero p)
  | cons x xs ih =>
    intro p hp hnd
    rw [List.map_cons, List.nodup_cons] at hnd
    cases p with
    | zero =>
      rw [List.findIdx_cons]
      simp
    | succ q =>
      have hq : q < xs.length := Nat.lt_of_succ_lt_succ hp
      have hget : (x :: xs).get ⟨q + 1, hp⟩ = xs.get ⟨q, hq⟩ := rfl
      rw [List.findIdx_cons, hget]
      have hne : (f x == f (xs.get ⟨q, hq⟩)) = false := by
        rw [beq_eq_false_iff_ne]
        intro hcontra
        exact hnd.1 (hcontra ▸ List.mem_map_of_mem f (xs.get_mem _ _))
      rw [hne]
      simp only [cond_false]
      rw [ih q hq hnd.2]

/-- Two positions in a list give a two-element sublist in order. -/
theorem sublist_of_get_lt {α : Type} :
    ∀ (l : List α) (i j : Nat) (hij : i < j) (hj : j < l.length),
      List.Sublist [l.get ⟨i, Nat.lt_trans hij hj⟩, l.get ⟨j, hj⟩] l := by
  intro l
  induction l with
  | nil => intro i j hij hj; exact absurd hj (Nat.not_lt_zero j)
  | cons x xs ih =>
    intro i j hij hj
    cases i with
    | zero =>
      cases j with
      | zero => exact absurd hij (lt_irrefl 0)
      | succ q =>
        have hq : q < xs.length := Nat.lt_of_succ_lt_succ hj
        exact List.Sublist.cons₂ x (List.singleton_sublist.mpr (xs.get_mem q hq))
    | succ m =>
      cases j with
      | zero => exact absurd hij (Nat.not_lt_zero (m + 1))
      | succ q =>
        have hq : q < xs.length := Nat.lt_of_succ_lt_succ hj
        exact List.Sublist.cons x (ih m q (Nat.lt_of_succ_lt_succ hij) hq)

/-- A two-element sublist occupies two ordered positions. -/
theorem sublist_pair_get {α : Type} {a b : α} :
    ∀ {l : List α}, List.Sublist [a, b] l →
      ∃ (i j : Nat) (hi : i < l.length) (hj : j < l.length),
        i < j ∧ l.get ⟨i, hi⟩ = a ∧ l.get ⟨j, hj⟩ = b := by
  intro l
  induction l with
  | nil => intro h; exact absurd h (by simp)
  | cons x xs ih =>
    intro h
    cases h with
    | cons _ h' =>
      obtain ⟨i, j, hi, hj, hij, ha, hb⟩ := ih h'
      exact ⟨i + 1, j + 1, Nat.succ_lt_succ hi, Nat.succ_lt_succ hj,
        Nat.succ_lt_succ hij, ha, hb⟩
    | cons₂ _ h' =>
      have hb : b ∈ xs := List.singleton_sublist.mp h'
      obtain ⟨⟨j, hj⟩, hbj⟩ := List.get_of_mem hb
      exact ⟨0, j + 1, Nat.succ_pos xs.length, Nat.succ_lt_succ hj,
        Nat.succ_pos j, rfl, hbj⟩

/-- Positions in the stable descending sort respect strictly greater
totals, and break ties by the original table order. -/
theorem sorted_pos_facts (stats : List DonorStats)
    (hkeys : (stats.map statKey).Nodup)
    (i j : Nat) (hi : i < stats.length) (hj : j < stats.length) :
    ((stats.get ⟨i, hi⟩).total_value > (stats.get ⟨j, hj⟩).total_value →
      (SortModel.stableSortDescBy (fun d => d.total_value) stats).findIdx
          (fun e => statKey e == statKey (stats.get ⟨i, hi⟩))
        < (SortModel.stableSortDescBy (fun d => d.total_value) stats).findIdx
          (fun e => statKey e == statKey (stats.get ⟨j, hj⟩)))
    ∧ ((stats.get ⟨i, hi⟩).total_value = (stats.get ⟨j, hj⟩).total_value → i < j →
      (SortModel.stableSortDescBy (fun d => d.total_value) stats).findIdx
          (fun e => statKey e == statKey (stats.get ⟨i, hi⟩))
        < (SortModel.stableSortDescBy (fun d => d.total_value) stats).findIdx
          (fun e => statKey e == statKey (stats.get ⟨j, hj⟩))) := by
  have hperm := SortModel.stableSortDescBy_perm (fun d : DonorStats => d.total_value) stats
  have hsortednd : ((SortModel.stableSortDescBy (fun d : DonorStats => d.total_value) stats).map
      statKey).Nodup := ((hperm.map statKey).nodup_iff).mpr hkeys
  have hsor := SortModel.stableSortDescBy_sorted (fun d : DonorStats => d.total_value) stats
  constructor
  · intro hgt
    have hd : stats.get ⟨i, hi⟩ ∈
        SortModel.stableSortDescBy (fun d : DonorStats => d.total_value) stats :=
      (SortModel.stableSortDescBy_mem _).mpr (stats.get_mem _ _)
    have he : stats.get ⟨j, hj⟩ ∈
        SortModel.stableSortDescBy (fun d : DonorStats => d.total_value) stats :=
      (SortModel.stableSortDescBy_mem _).mpr (stats.get_mem _ _)
    obtain ⟨⟨pd, hpd⟩, hgd⟩ := List.get_of_mem hd
    obtain ⟨⟨pe, hpe⟩, hge⟩ := List.get_of_mem he
    have hfd := findIdx_eq_of_nodup_keys statKey _ pd hpd hsortednd
    rw [hgd] at hfd
    have hfe := findIdx_eq_of_nodup_keys statKey _ pe hpe hsortednd
    rw [hge] at hfe
    rw [hfd, hfe]
    rcases Nat.lt_trichotomy pd pe with h | h | h
    · exact h
    · exfalso
      have : stats.get ⟨i, hi⟩ = stats.get ⟨j, hj⟩ := by
        rw [← hgd, ← hge]
        congr 1
        exact Fin.ext h
      rw [this] at hgt
      exact lt_irrefl _ hgt
    · exfalso
      have hrel := hsor.rel_get_of_lt (show (⟨pe, hpe⟩ : Fin _) < ⟨pd, hpd⟩ from h)
      rw [hgd, hge] at hrel
      exact absurd hgt (not_lt.mpr hrel)
  · intro heq hij
    have hsub : List.Sublist [stats.get ⟨i, hi⟩, stats.get ⟨j, hj⟩] stats :=
      sublist_of_get_lt stats i j hij hj
    have hpair := SortModel.stableSortDescBy_pair (fun d : DonorStats => d.total_value)
      (le_of_eq heq.symm) hsub
    obtain ⟨p, q, hp, hq, hpq, hgp, hgq⟩ := sublist_pair_get hpair
    have hfd := findIdx_eq_of_nodup_keys statKey _ p hp hsortednd
    rw [hgp] at hfd
    have hfe := findIdx_eq_of_nodup_keys statKey _ q hq hsortednd
    rw [hgq] at hfe
    rw [hfd, hfe]
    exact hpq

/-- Claim C6 (amended): `_update_rankings` — invoked by
`_update_donor_stats` on every gift, i.e. whenever any donor's cumulative
value changes — recomputes every donor's `contribution_rank` as the
1-based position in a stable descending sort on cumulative value, where
ties between equal cumulative values keep the stats-table insertion order
(the order donors were first seen), not the earliest last-gift time: a
strictly larger total always gets a strictly smaller rank, and among
equal totals the earlier table entry gets the smaller rank. -/
theorem update_rankings_stable_desc (stats : List GiftSystem.DonorStats)
    (hkeys : (stats.map GiftSystem.statKey).Nodup) :
    ((GiftSystem.update_rankings stats).map GiftSystem.statKey
        = stats.map GiftSystem.statKey)
    ∧ (∀ (i : Nat) (hi : i < (GiftSystem.update_rankings stats).length)
        (hi' : i < stats.length),
        ((GiftSystem.update_rankings stats).get ⟨i, hi⟩).contribution_rank
          = (SortModel.stableSortDescBy (fun d => d.total_value) stats).findIdx
              (fun e => GiftSystem.statKey e
                == GiftSystem.statKey (stats.get ⟨i, hi'⟩)) + 1)
    ∧ ∀ (i j : Nat) (hi : i < (GiftSystem.update_rankings stats).length)
        (hj : j < (GiftSystem.update_rankings stats).length),
        (((GiftSystem.update_rankings stats).get ⟨i, hi⟩).total_value
            > ((GiftSystem.update_rankings stats).get ⟨j, hj⟩).total_value →
          ((GiftSystem.update_rankings stats).get ⟨i, hi⟩).contribution_rank
            < ((GiftSystem.update_rankings stats).get ⟨j, hj⟩).contribution_rank)
        ∧ (((GiftSystem.update_rankings stats).get ⟨i, hi⟩).total_value
            = ((GiftSystem.update_rankings stats).get ⟨j, hj⟩).total_value → i < j →
          ((GiftSystem.update_rankings stats).get ⟨i, hi⟩).contribution_rank
            < ((GiftSystem.update_rankings stats).get ⟨j, hj⟩).contribution_rank) := by
  have hlen : (GiftSystem.update_rankings stats).length = stats.length := by
    simp [GiftSystem.update_rankings]
  refine ⟨?_, ?_, ?_⟩
  · unfold GiftSystem.update_rankings
    rw [List.map_map]
    rfl
  · intro i hi hi'
    simp only [GiftSystem.update_rankings, List.get_eq_getElem, List.getElem_map]
  · intro i j hi hj
    have hi' : i < stats.length := hlen ▸ hi
    have hj' : j < stats.length := hlen ▸ hj
    have hfacts := sorted_pos_facts stats hkeys i j hi' hj'
    constructor
    · intro hgt
      simp only [GiftSystem.update_rankings, List.get_eq_getElem,
        List.getElem_map] at hgt ⊢
      exact Nat.succ_lt_succ (hfacts.1 hgt)
    · intro heq hij
      simp only [GiftSystem.update_rankings, List.get_eq_getElem,
        List.getElem_map] at heq ⊢
      exact Nat.succ_lt_succ (hfacts.2 heq hij)

unseal Rat.add Rat.mul Rat.inv Rat.sub in
/-- Counterexample to claim C6: after gifts of value 2 (donor a, time 1),
5 (donor b, time 2) and 3 (donor a, time 3), both donors total 5 and
donor a's last-seen time (3) is later than donor b's (2), yet the code
ranks a first (rank 1) — ties keep dict insertion order.  The spec's rule
(ties broken by earliest last-seen) would rank b first, as `specRankings`
shows. -/
theorem update_rankings_tiebreak_counterexample :
    ((GiftSystem.process_gift (GiftSystem.process_gift (GiftSystem.process_gift
        GiftSystem.initGiftProcessor
        ⟨"mock", "a", "甲", "礼物", 1, 2⟩ 1).1
        ⟨"mock", "b", "乙", "礼物", 1, 5⟩ 2).1
        ⟨"mock", "a", "甲", "礼物", 1, 3⟩ 3).1.donor_stats.map
      (fun d => (GiftSystem.statKey d, d.total_value, d.last_gift_time,
        d.contribution_rank)))
      = [("mock_a", (5 : ℚ), 3, 1), ("mock_b", (5 : ℚ), 2, 2)]
    ∧ ((GiftSystem.specRankings (GiftSystem.process_gift (GiftSystem.process_gift
        (GiftSystem.process_gift GiftSystem.initGiftProcessor
        ⟨"mock", "a", "甲", "礼物", 1, 2⟩ 1).1
        ⟨"mock", "b", "乙", "礼物", 1, 5⟩ 2).1
        ⟨"mock", "a", "甲", "礼物", 1, 3⟩ 3).1.donor_stats).map
      (fun d => (GiftSystem.statKey d, d.contribution_rank)))
      = [("mock_a", 2), ("mock_b", 1)] := by
  constructor
  · decide
  · decide

/-- Witness for the amended C6: two donors with equal totals where the
first-seen donor has the later last-gift time — the earlier table entry
still gets the better rank. -/
theorem update_rankings_stable_desc_witness :
    (([⟨"a", "甲", "mock", 5, 2, 3, 0⟩, ⟨"b", "乙", "mock", 5, 1, 2, 0⟩]
        : List GiftSystem.DonorStats).map GiftSystem.statKey).Nodup
    ∧ ((GiftSystem.update_rankings
        [⟨"a", "甲", "mock", 5, 2, 3, 0⟩, ⟨"b", "乙", "mock", 5, 1, 2, 0⟩]).get
          ⟨0, by decide⟩).contribution_rank
      < ((GiftSystem.update_rankings
        [⟨"a", "甲", "mock", 5, 2, 3, 0⟩, ⟨"b", "乙", "mock", 5, 1, 2, 0⟩]).get
          ⟨1, by decide⟩).contribution_rank := by
  have h := update_rankings_stable_desc
    [⟨"a", "甲", "mock", 5, 2, 3, 0⟩, ⟨"b", "乙", "mock", 5, 1, 2, 0⟩] (by decide)
  exact ⟨by decide, (h.2.2 0 1 (by decide) (by decide)).2 (by decide) (by decide)⟩

end RankingOrder


section VoteScoring

open Leaderboard

/-- `find?` skips an exhausted prefix. -/
theorem find?_append_of_none {α : Type} (p : α → Bool) (l₁ l₂ : List α)
    (h : l₁.find? p = none) : (l₁ ++ l₂).find? p = l₂.find? p := by
  induction l₁ with
  | nil => rfl
  | cons a l ih =>
    cases hpa : p a with
    | true =>
      rw [List.find?_cons_of_pos _ hpa] at h
      exact Option.noConfusion h
    | false =>
      rw [List.find?_cons_of_neg _ (by simp [hpa])] at h
      rw [List.cons_append, List.find?_cons_of_neg _ (by simp [hpa])]
      exact ih h

/-- The keyed entry after `boardUpdate` is the mutated old entry (or the
mutated fresh one when the key was absent). -/
theorem boardUpdate_find? (board : List (String × LeaderboardEntry))
    (key : String) (fresh : LeaderboardEntry)
    (g : LeaderboardEntry → LeaderboardEntry) :
    ((boardUpdate board key fresh g).find? (fun kv => kv.1 == key)).map Prod.snd
      = some (g (((board.find? (fun kv => kv.1 == key)).map Prod.snd).getD fresh)) := by
  have hpf : ((fun kv : String × LeaderboardEntry => kv.1 == key)
      ∘ (fun kv => if kv.1 == key then (kv.1, g kv.2) else kv))
      = (fun kv : String × LeaderboardEntry => kv.1 == key) := by
    funext kv
    simp only [Function.comp_apply]
    by_cases h : (kv.1 == key) = true
    · rw [if_pos h]
    · rw [if_neg h]
  cases hfind : board.find? (fun kv => kv.1 == key) with
  | some kv₀ =>
    have hp : (kv₀.1 == key) = true := by
      have h := List.find?_some hfind
      exact h
    have hany : board.any (fun kv => kv.1 == key) = true :=
      List.any_eq_true.mpr ⟨kv₀, List.mem_of_find?_eq_some hfind, hp⟩
    unfold boardUpdate
    simp only [hany, if_true]
    rw [List.find?_map, hpf, hfind]
    simp [hp]
    rw [if_pos (beq_iff_eq.mp hp)]
  | none =>
    have hany : board.any (fun kv => kv.1 == key) = false := by
      cases hany : board.any (fun kv => kv.1 == key) with
      | false => rfl
      | true =>
        obtain ⟨kv, hkv, hp⟩ := List.any_eq_true.mp hany
        exact absurd hp (List.find?_eq_none.mp hfind kv hkv)
    unfold boardUpdate
    simp only [hany, Bool.false_eq_true, if_false]
    rw [List.find?_map, hpf, find?_append_of_none _ _ _ hfind]
    have hsingle : List.find? (fun kv : String × LeaderboardEntry => kv.1 == key)
        [(key, fresh)] = some (key, fresh) := by simp
    rw [hsingle]
    simp [hfind]

/-- `boardScore` after a `boardUpdate` is the mutated score of the base
entry, and the base entry's score is the old board score (a fresh entry
starts from 0). -/
theorem boardScore_boardUpdate (board : List (String × LeaderboardEntry))
    (key : String) (fresh : LeaderboardEntry)
    (g : LeaderboardEntry → LeaderboardEntry) (hfresh : fresh.score = 0) :
    boardScore (boardUpdate board key fresh g) key
      = (g (((board.find? (fun kv => kv.1 == key)).map Prod.snd).getD fresh)).score
    ∧ (((board.find? (fun kv => kv.1 == key)).map Prod.snd).getD fresh).score
      = boardScore board key := by
  constructor
  · have h := boardUpdate_find? board key fresh g
    obtain ⟨kv', hkv', hsnd⟩ := Option.map_eq_some'.mp h
    unfold boardScore
    rw [hkv']
    simp [hsnd]
  · unfold boardScore
    cases hfind : board.find? (fun kv => kv.1 == key) with
    | some kv₀ => simp
    | none => simp [hfresh]

/-- The score delta of one vote-entry mutation. -/
theorem bumpVoteEntry_score (e : LeaderboardEntry) (username : String)
    (won : Bool) (now : Nat) :
    (bumpVoteEntry e username won now).score
      = e.score + 1 + (if won then 2 else 0) := by
  cases won <;> simp [bumpVoteEntry]

/-- Claim C8: for each voter processed at vote resolution,
`update_vote_participation` adds exactly +1 to the voter's
vote-participation score, plus a further +2 to that score and +1 to the
same identity's lucky-board score exactly when the voted option equals
the session's winning option; a losing vote leaves the lucky board
untouched. -/
theorem update_vote_participation_scores (lb : Leaderboard.Leaderboard)
    (user_id username platform voted winning : String) (now : Nat) :
    boardScore (update_vote_participation lb user_id username platform
        voted winning now).vote (platform ++ "_" ++ user_id)
      = boardScore lb.vote (platform ++ "_" ++ user_id) + 1
        + (if voted = winning then 2 else 0)
    ∧ boardScore (update_vote_participation lb user_id username platform
        voted winning now).lucky (platform ++ "_" ++ user_id)
      = boardScore lb.lucky (platform ++ "_" ++ user_id)
        + (if voted = winning then 1 else 0)
    ∧ (voted ≠ winning →
        (update_vote_participation lb user_id username platform
          voted winning now).lucky = lb.lucky) := by
  by_cases hw : voted = winning
  · have hwb : (voted == winning) = true := beq_iff_eq.mpr hw
    have hvoteEq : (update_vote_participation lb user_id username platform
        voted winning now).vote
        = boardUpdate lb.vote (platform ++ "_" ++ user_id)
          (freshVoteEntry user_id username platform now)
          (fun e => bumpVoteEntry e username (voted == winning) now) := by
      unfold update_vote_participation update_lucky_board
      rw [hwb]
      rfl
    have hluckyEq : (update_vote_participation lb user_id username platform
        voted winning now).lucky
        = boardUpdate lb.lucky (platform ++ "_" ++ user_id)
          (freshLuckyEntry user_id username platform now)
          (bumpLuckyEntry username now) := by
      unfold update_vote_participation update_lucky_board
      rw [hwb]
      rfl
    have hv := boardScore_boardUpdate lb.vote (platform ++ "_" ++ user_id)
      (freshVoteEntry user_id username platform now)
      (fun e => bumpVoteEntry e username (voted == winning) now) rfl
    have hl := boardScore_boardUpdate lb.lucky (platform ++ "_" ++ user_id)
      (freshLuckyEntry user_id username platform now)
      (bumpLuckyEntry username now) rfl
    refine ⟨?_, ?_, fun hne => absurd hw hne⟩
    · rw [hvoteEq, hv.1, bumpVoteEntry_score, hwb, hv.2, if_pos hw]
      simp
    · rw [hluckyEq, hl.1]
      unfold bumpLuckyEntry
      rw [if_pos hw]
      simp [hl.2]
  · have hwb : (voted == winning) = false := by
      rw [beq_eq_false_iff_ne]
      exact hw
    have hvoteEq : (update_vote_participation lb user_id username platform
        voted winning now).vote
        = boardUpdate lb.vote (platform ++ "_" ++ user_id)
          (freshVoteEntry user_id username platform now)
          (fun e => bumpVoteEntry e username (voted == winning) now) := by
      unfold update_vote_participation
      rw [hwb]
      rfl
    have hluckyEq : (update_vote_participation lb user_id username platform
        voted winning now).lucky = lb.lucky := by
      unfold update_vote_participation
      rw [hwb]
      rfl
    have hv := boardScore_boardUpdate lb.vote (platform ++ "_" ++ user_id)
      (freshVoteEntry user_id username platform now)
      (fun e => bumpVoteEntry e username (voted == winning) now) rfl
    refine ⟨?_, ?_, fun _ => hluckyEq⟩
    · rw [hvoteEq, hv.1, bumpVoteEntry_score, hwb, hv.2, if_neg hw]
      simp
    · rw [hluckyEq, if_neg hw]
      simp

/-- Witness for C8 at a concrete winning vote on a fresh leaderboard. -/
theorem update_vote_participation_scores_witness :
    boardScore (update_vote_participation initLeaderboard "u1" "甲" "mock"
        "2" "2" 7).vote ("mock" ++ "_" ++ "u1")
      = boardScore initLeaderboard.vote ("mock" ++ "_" ++ "u1") + 1
        + (if ("2" : String) = "2" then 2 else 0)
    ∧ boardScore (update_vote_participation initLeaderboard "u1" "甲" "mock"
        "2" "2" 7).lucky ("mock" ++ "_" ++ "u1")
      = boardScore initLeaderboard.lucky ("mock" ++ "_" ++ "u1")
        + (if ("2" : String) = "2" then 1 else 0) :=
  ⟨(update_vote_participation_scores initLeaderboard "u1" "甲" "mock" "2" "2" 7).1,
   (update_vote_participation_scores initLeaderboard "u1" "甲" "mock" "2" "2" 7).2.1⟩

end VoteScoring

section Persistence

open Leaderboard

/-- Decoding inverts encoding on the numeric-counter dict. -/
theorem decodeExtra_encode (l : List (String × ℚ)) :
    decodeExtra (l.map (fun p => (p.1, JValue.jnum p.2))) = some l := by
  induction l with
  | nil => rfl
  | cons p rest ih =>
    cases p with
    | mk k q => simp [decodeExtra, ih]

/-- `LeaderboardEntry(**asdict(e))` reconstructs `e` exactly. -/
theorem decodeEntry_encode (e : LeaderboardEntry) :
    decodeEntry (encodeEntry e) = some e := by
  cases e with
  | mk uid un pf sc ex lu =>
    simp [decodeEntry, encodeEntry, decodeExtra_encode]

/-- Decoding inverts encoding on one board dict. -/
theorem decodeBoard_encode (board : List (String × LeaderboardEntry)) :
    decodeBoard (encodeBoard board) = some board := by
  have haux : ∀ (l : List (String × LeaderboardEntry)),
      (l.map (fun kv => (kv.1, encodeEntry kv.2))).mapM
        (fun kv => (decodeEntry kv.2).map (fun e => (kv.1, e))) = some l := by
    intro l
    induction l with
    | nil => rfl
    | cons kv rest ih =>
      simp only [List.map_cons, List.mapM_cons, decodeEntry_encode]
      rw [ih]
      rfl
  unfold decodeBoard encodeBoard
  exact haux board

/-- The history entries round-trip through their JSON strings. -/
theorem filterMap_jstr (k : Nat) (l : List String) :
    List.filterMap (fun x => match x with
      | JValue.jstr s => some s
      | _ => none) (List.drop k (l.map JValue.jstr)) = List.drop k l := by
  rw [← List.map_drop]
  induction l.drop k with
  | nil => rfl
  | cons a rest ih => simp [ih]

/-- Claim C7: for any leaderboard state with pairwise distinct scores on
each board, `_save` followed by `_load` succeeds and reproduces every
board dict exactly, hence `get_leaderboard` returns the identical
ordering of entries for every board kind and every limit. -/
theorem leaderboard_save_load_roundtrip (lb : Leaderboard.Leaderboard)
    (hdist : ∀ bt : LeaderboardType,
      ((boardOf lb bt).map (fun kv => kv.2.score)).Pairwise (fun a b => a ≠ b)) :
    ∃ lb', load (save lb) = some lb'
      ∧ lb'.contribution = lb.contribution
      ∧ lb'.vote = lb.vote
      ∧ lb'.lucky = lb.lucky
      ∧ ∀ (bt : LeaderboardType) (limit : Nat),
          get_leaderboard lb' bt limit = get_leaderboard lb bt limit := by
  have h1 : (("boards" : String) == "history") = false := by decide
  have h2 : (("contribution" : String) == "vote") = false := by decide
  have h3 : (("contribution" : String) == "lucky") = false := by decide
  have h4 : (("vote" : String) == "lucky") = false := by decide
  have hload : load (save lb) = some { contribution := lb.contribution, vote := lb.vote, lucky := lb.lucky, history := (lb.history.drop (lb.history.length - 100)) } := by
    unfold load save loadBoard
    simp [jlookup, h1, h2, h3, h4, decodeBoard_encode, filterMap_jstr]
  refine ⟨_, hload, rfl, rfl, rfl, ?_⟩
  intro bt limit
  unfold get_leaderboard boardOf
  cases bt <;> rfl

/-- Witness for C7 on a one-donor contribution board with distinct
scores. -/
theorem leaderboard_save_load_roundtrip_witness :
    (∀ bt : LeaderboardType,
      ((Leaderboard.boardOf { contribution := [("mock_u1", (⟨"u1", "甲", "mock", 5, [], 3⟩ : Leaderboard.LeaderboardEntry))], vote := [], lucky := [], history := ["e1"] } bt).map
        (fun kv => kv.2.score)).Pairwise (fun a b => a ≠ b))
    ∧ ∃ lb', Leaderboard.load (Leaderboard.save { contribution := [("mock_u1", (⟨"u1", "甲", "mock", 5, [], 3⟩ : Leaderboard.LeaderboardEntry))], vote := [], lucky := [], history := ["e1"] }) = some lb'
      ∧ ∀ (bt : LeaderboardType) (limit : Nat),
          Leaderboard.get_leaderboard lb' bt limit
            = Leaderboard.get_leaderboard { contribution := [("mock_u1", (⟨"u1", "甲", "mock", 5, [], 3⟩ : Leaderboard.LeaderboardEntry))], vote := [], lucky := [], history := ["e1"] } bt limit := by
  have hdist : ∀ bt : LeaderboardType,
      ((Leaderboard.boardOf { contribution := [("mock_u1", (⟨"u1", "甲", "mock", 5, [], 3⟩ : Leaderboard.LeaderboardEntry))], vote := [], lucky := [], history := ["e1"] } bt).map
        (fun kv => kv.2.score)).Pairwise (fun a b => a ≠ b) := by
    intro bt
    cases bt <;> simp [Leaderboard.boardOf]
  obtain ⟨lbr, hload, _, _, _, hget⟩ := leaderboard_save_load_roundtrip { contribution := [("mock_u1", (⟨"u1", "甲", "mock", 5, [], 3⟩ : Leaderboard.LeaderboardEntry))], vote := [], lucky := [], history := ["e1"] } hdist
  exact ⟨hdist, lbr, hload, hget⟩

end Persistence

section StoryParsing

open AIStoryteller

/-- Claim C9: `_parse_story_response` always returns a non-empty option
list: when the `[选项N]` tag pattern yields nothing and the numbered-line
fallback matches no line, the fixed default option set (继续探索, 原地修炼,
寻找机缘) is returned instead of an empty list. -/
theorem parse_story_options_nonempty_defaults (response : String) :
    parse_story_options response ≠ []
    ∧ (findTagOptions response = [] → findNumberedOptions response = [] →
        parse_story_options response = defaultOptions) := by
  constructor
  · simp only [parse_story_options]
    by_cases h1 : (findTagOptions response).isEmpty = true
    · rw [if_pos h1]
      by_cases h2 : (findNumberedOptions response).isEmpty = true
      · rw [if_pos h2]
        intro hc
        simp [defaultOptions] at hc
      · rw [if_neg h2]
        intro hc
        exact h2 (by rw [hc]; rfl)
    · rw [if_neg h1, if_neg h1]
      intro hc
      exact h1 (by rw [hc]; rfl)
  · intro ht hn
    simp only [parse_story_options]
    rw [ht, hn]
    rfl

/-- Witness for C9: a matchless narrative text falls back to the default
options. -/
theorem parse_story_options_witness :
    findTagOptions "你在山路上缓缓前行。" = []
    ∧ findNumberedOptions "你在山路上缓缓前行。" = []
    ∧ parse_story_options "你在山路上缓缓前行。" = defaultOptions :=
  ⟨by decide, by decide,
    (parse_story_options_nonempty_defaults "你在山路上缓缓前行。").2
      (by decide) (by decide)⟩

end StoryParsing
